import Mathlib

/-!
# pROC `Predictor.h`: ordering and resampling views

A shallow embedding of `src/Predictor.h`.

* `double` values are taken from a linearly ordered type `α` (the ordering properties are
  stated for a totally ordered value domain; concrete examples use `ℚ` or `ℤ`).
* C++ `int` indices are `Int`; vector sizes are assumed to fit in an `int`.
* Every unchecked read `v[i]` is modelled by `readAt`, which returns `none` exactly when the
  C++ read would be out of bounds.
* `std::sort` is not part of the repository.  `getPredictorOrder` takes the sorting routine as
  a parameter and the theorems assume only what the C++ standard guarantees about it
  (`StdSortContract`); `insertionSort` is an executable routine that meets this contract.
* The bodies of the two `resample` members and the random source are not in the header.  They
  follow the written specification; the random source is a parameter constrained by
  `DrawContract`, and `lcgDraw` is an executable generator that meets it.
-/

namespace PROC

/-! ## Sequences and unchecked reads -/

/-- Unchecked read `v[i]` with an `int` index: `none` when `i` is outside `[0, v.size())`. -/
def readAt {β : Type} (v : List β) (i : Int) : Option β :=
  if i < 0 then none else v[i.toNat]?

/-! ## `class Predictor` -/

/-- Fields of `class Predictor` (lines 33-37). -/
structure Predictor (α : Type) where
  controls : List α
  cases : List α
  nControls : Int
  nCases : Int
  nTotal : Int

/-- Constructor `Predictor(someControls, someCases)` (lines 38-40). -/
def Predictor.new {α : Type} (someControls someCases : List α) : Predictor α :=
  Predictor.mk someControls someCases
    (someControls.length : Int) (someCases.length : Int)
    ((someControls.length : Int) + (someCases.length : Int))

/-- The `operator[]` of `Predictor` (lines 41-43). -/
def Predictor.get {α : Type} (p : Predictor α) (anIdx : Int) : Option α :=
  if anIdx < p.nControls then readAt p.controls anIdx
  else readAt p.cases (anIdx - p.nControls)

/-- Accessor `getControls` (line 46). -/
def Predictor.getControls {α : Type} (p : Predictor α) : List α := p.controls

/-- Accessor `getCases` (line 47). -/
def Predictor.getCases {α : Type} (p : Predictor α) : List α := p.cases

/-- Member `isControl` (lines 49-51). -/
def Predictor.isControl {α : Type} (p : Predictor α) (anIdx : Int) : Bool :=
  decide (anIdx < p.nControls)

/-- Member `isCase` (lines 53-55). -/
def Predictor.isCase {α : Type} (p : Predictor α) (anIdx : Int) : Bool :=
  decide (anIdx ≥ p.nControls)

/-- Member `isValid` (lines 57-59). -/
def Predictor.isValid {α : Type} (p : Predictor α) (anIdx : Int) : Bool :=
  decide (anIdx < p.nTotal)

/-! ## `class ResampledPredictor` -/

/-- Modelled from the spec: `getResampledVector` lives in `rocUtils.h`, which is not part of
the sources at hand.  The spec says the resampled sequences are "built by gathering the
original controls/cases at the index sequences": slot `k` of the result holds the unchecked
read `x[idx[k]]` (`none` where that read is out of bounds). -/
def getResampledVector {α : Type} (x : List α) (idx : List Int) : List (Option α) :=
  idx.map (readAt x)

/-- Fields of `class ResampledPredictor` (lines 72-74): the `Predictor` base object, the two
index vectors and the two materialized vectors. -/
structure ResampledPredictor (α : Type) extends Predictor α where
  controlsIdx : List Int
  casesIdx : List Int
  resampledControls : List (Option α)
  resampledCases : List (Option α)

/-- Public constructor `ResampledPredictor(somePredictor, someControlsIdx, someCasesIdx)`
(lines 80-84). -/
def ResampledPredictor.new {α : Type} (somePredictor : Predictor α)
    (someControlsIdx someCasesIdx : List Int) : ResampledPredictor α :=
  ResampledPredictor.mk somePredictor someControlsIdx someCasesIdx
    (getResampledVector somePredictor.getControls someControlsIdx)
    (getResampledVector somePredictor.getCases someCasesIdx)

/-- The `operator[]` of `ResampledPredictor` (lines 89-91). -/
def ResampledPredictor.get {α : Type} (rp : ResampledPredictor α) (anIdx : Int) : Option α :=
  if anIdx < rp.nControls then
    (readAt rp.controlsIdx anIdx).bind (fun k => rp.toPredictor.get k)
  else
    (readAt rp.casesIdx (anIdx - rp.nControls)).bind
      (fun k => rp.toPredictor.get (k + rp.nControls))

/-- Accessor `getControls` of `ResampledPredictor` (line 94). -/
def ResampledPredictor.getControls {α : Type} (rp : ResampledPredictor α) : List (Option α) :=
  rp.resampledControls

/-- Accessor `getCases` of `ResampledPredictor` (line 95). -/
def ResampledPredictor.getCases {α : Type} (rp : ResampledPredictor α) : List (Option α) :=
  rp.resampledCases

/-! ## Comparators and `getPredictorOrder` -/

/-- What the templates `PredictorComparator<P>` and `getPredictorOrder<P>` use of their type
parameter `P`: the member `nTotal` and `operator[]`. -/
class PredictorLike (P : Type) (α : outParam Type) where
  nTotal : P → Int
  get : P → Int → Option α

instance instPredictorLikePredictor {α : Type} : PredictorLike (Predictor α) α where
  nTotal := fun p => p.nTotal
  get := fun p i => p.get i

instance instPredictorLikeResampled {α : Type} : PredictorLike (ResampledPredictor α) α where
  nTotal := fun rp => rp.nTotal
  get := fun rp i => rp.get i

/-- Call operator of `PredictorComparator` (lines 127-129): `predictor[i] < predictor[j]`;
`none` when one of the two reads is out of bounds. -/
def PredictorComparator {P α : Type} [PredictorLike P α] [LinearOrder α]
    (predictor : P) (i j : Int) : Option Bool :=
  (PredictorLike.get predictor i).bind fun a =>
    (PredictorLike.get predictor j).bind fun b => some (decide (a < b))

/-- Call operator of `PredictorReverseComparator` (lines 136-138):
`predictor[j] < predictor[i]`. -/
def PredictorReverseComparator {P α : Type} [PredictorLike P α] [LinearOrder α]
    (predictor : P) (i j : Int) : Option Bool :=
  (PredictorLike.get predictor j).bind fun b =>
    (PredictorLike.get predictor i).bind fun a => some (decide (b < a))

/-- The vector built by `std::vector<int> index(n); std::iota(index.begin(), index.end(), 0)`
(lines 147-148). -/
def iota (n : Int) : List Int :=
  (List.range n.toNat).map Int.ofNat

/-- Shape of a sorting routine: a comparator and a sequence of indices in, the reordered
sequence out (`none` if a comparison it needs is undefined). -/
abbrev SortRoutine : Type :=
  (Int → Int → Option Bool) → List Int → Option (List Int)

/-- Template `getPredictorOrder` (lines 146-157), with the sorting routine standing for
`std::sort`. -/
def getPredictorOrder {P α : Type} [PredictorLike P α] [LinearOrder α]
    (sort : SortRoutine) (predictor : P) (direction : String) : Option (List Int) :=
  let index := iota (PredictorLike.nTotal predictor)
  if direction = ">" then
    sort (PredictorComparator predictor) index
  else
    sort (PredictorReverseComparator predictor) index

/-! ## The contract of `std::sort` -/

/-- A comparator is a strict weak ordering on the elements of `l`: it is defined on them,
irreflexive, transitive, and incomparability is transitive. -/
structure StrictWeakOn (comp : Int → Int → Option Bool) (l : List Int) : Prop where
  defined : ∀ a ∈ l, ∀ b ∈ l, (comp a b).isSome = true
  irrefl : ∀ a ∈ l, comp a a ≠ some true
  trans : ∀ a ∈ l, ∀ b ∈ l, ∀ c ∈ l,
    comp a b = some true → comp b c = some true → comp a c = some true
  incomp : ∀ a ∈ l, ∀ b ∈ l, ∀ c ∈ l,
    comp a b ≠ some true → comp b a ≠ some true →
    comp b c ≠ some true → comp c b ≠ some true →
    comp a c ≠ some true ∧ comp c a ≠ some true

/-- A sequence is sorted with respect to `comp`: no later element compares before an earlier
one. -/
def SortedBy (comp : Int → Int → Option Bool) (r : List Int) : Prop :=
  r.Pairwise (fun a b => comp b a ≠ some true)

/-- What the C++ standard guarantees of `std::sort(first, last, comp)`: when `comp` is a strict
weak ordering on the elements of the range, the call returns, and afterwards the range is a
permutation of its former contents that is sorted with respect to `comp`. -/
def StdSortContract (sort : SortRoutine) : Prop :=
  ∀ (comp : Int → Int → Option Bool) (l : List Int), StrictWeakOn comp l →
    ∃ r, sort comp l = some r ∧ r.Perm l ∧ SortedBy comp r

/-- Insert `x` into a sorted sequence, after every element that compares before it. -/
def insertSorted (comp : Int → Int → Option Bool) (x : Int) : List Int → Option (List Int)
  | [] => some [x]
  | y :: ys =>
    (comp y x).bind fun b =>
      if b then (insertSorted comp x ys).bind fun r => some (y :: r)
      else some (x :: y :: ys)

/-- A stable insertion sort: an executable sorting routine that meets the contract of
`std::sort` (`insertionSort_contract`), used to evaluate the concrete examples. -/
def insertionSort : SortRoutine
  | _, [] => some []
  | comp, x :: xs => (insertionSort comp xs).bind fun s => insertSorted comp x s

/-- The call `getPredictorOrder(predictor)` with the direction omitted: the default argument
`direction = ">"` of line 146. -/
def getPredictorOrderDefault {P α : Type} [PredictorLike P α] [LinearOrder α]
    (sort : SortRoutine) (predictor : P) : Option (List Int) :=
  getPredictorOrder sort predictor ">"

/-! ## Resampling strategies -/

/-- Private constructor `ResampledPredictor(somePredictor)` (lines 76-78): copies the base
predictor and leaves the index vectors and the materialized vectors empty. -/
def ResampledPredictor.newEmpty {α : Type} (somePredictor : Predictor α) :
    ResampledPredictor α :=
  ResampledPredictor.mk somePredictor [] [] [] []

/-- Modelled from the spec: the random source is an external collaborator, "a
uniform-random-with-replacement index generator (pseudo-random integer draws in `[0, n)`)".
One call takes the generator state, the size `n` of the domain and the number of draws, and
returns the drawn indices with the next generator state. -/
abbrev IndexGenerator (σ : Type) : Type :=
  σ → Nat → Nat → List Int × σ

/-- Modelled from the spec: what the spec says of the index generator: `count` draws from
`[0, n)` give `count` values, each in `[0, n)`.  Draws from an empty domain are left
undefined by the spec, so nothing is required of a call with `n = 0` and `count > 0`. -/
def DrawContract {σ : Type} (gen : IndexGenerator σ) : Prop :=
  ∀ (s : σ) (n count : Nat), (count = 0 ∨ 0 < n) →
    (gen s n count).1.length = count ∧
    ∀ v ∈ (gen s n count).1, 0 ≤ v ∧ v < (n : Int)

/-- Modelled from the spec: the body of `ResampledPredictorStratified::resample` is not in the
header.  Spec 4.3: it "draws `nControls` values independently and uniformly at random with
replacement from `[0, nControls)` to form `controlsIdx`, and independently draws `nCases`
values uniformly at random with replacement from `[0, nCases)` to form `casesIdx`", then the
resampled group sequences are gathered at these indices. -/
def ResampledPredictorStratified.resample {α σ : Type} (gen : IndexGenerator σ) (s : σ)
    (rp : ResampledPredictor α) : ResampledPredictor α × σ :=
  let drawControls := gen s rp.nControls.toNat rp.nControls.toNat
  let drawCases := gen drawControls.2 rp.nCases.toNat rp.nCases.toNat
  (ResampledPredictor.mk rp.toPredictor drawControls.1 drawCases.1
      (getResampledVector rp.toPredictor.getControls drawControls.1)
      (getResampledVector rp.toPredictor.getCases drawCases.1),
    drawCases.2)

/-- Constructor `ResampledPredictorStratified(somePredictor)` (line 101): the private base
constructor followed by `resample()`. -/
def ResampledPredictorStratified.new {α σ : Type} (gen : IndexGenerator σ) (s : σ)
    (somePredictor : Predictor α) : ResampledPredictor α × σ :=
  ResampledPredictorStratified.resample gen s (ResampledPredictor.newEmpty somePredictor)

/-- Modelled from the spec: the body of `ResampledPredictorNonStratified::resample` is not in
the header.  Spec 4.3: it "draws `nTotal` values uniformly at random with replacement from
`[0, nTotal)`" and partitions them: "the first `nControls` pooled draws become (possibly
cross-group) control slot fills, translated back to per-group sub-indices, and the remaining
`nCases` draws become case slot fills".  The spec leaves the translation of a pooled index
into a sub-index open, so the two translations are parameters. -/
def ResampledPredictorNonStratified.resample {α σ : Type} (gen : IndexGenerator σ)
    (toControlIdx toCaseIdx : Int → Int) (s : σ) (rp : ResampledPredictor α) :
    ResampledPredictor α × σ :=
  let pooled := gen s rp.nTotal.toNat rp.nTotal.toNat
  let someControlsIdx := (pooled.1.take rp.nControls.toNat).map toControlIdx
  let someCasesIdx := (pooled.1.drop rp.nControls.toNat).map toCaseIdx
  (ResampledPredictor.mk rp.toPredictor someControlsIdx someCasesIdx
      (getResampledVector rp.toPredictor.getControls someControlsIdx)
      (getResampledVector rp.toPredictor.getCases someCasesIdx),
    pooled.2)

/-- Constructor `ResampledPredictorNonStratified(somePredictor)` (line 109): the private base
constructor followed by `resample()`. -/
def ResampledPredictorNonStratified.new {α σ : Type} (gen : IndexGenerator σ)
    (toControlIdx toCaseIdx : Int → Int) (s : σ) (somePredictor : Predictor α) :
    ResampledPredictor α × σ :=
  ResampledPredictorNonStratified.resample gen toControlIdx toCaseIdx s
    (ResampledPredictor.newEmpty somePredictor)

/-- A small linear congruential generator, an executable index generator that meets
`DrawContract`: the state steps by `s ↦ (5 s + 3) mod 16` and a draw is the state modulo the
size of the domain. -/
def lcgDraw : IndexGenerator Nat
  | s, _, 0 => ([], s)
  | s, n, count + 1 =>
    let rest := lcgDraw ((5 * s + 3) % 16) n count
    ((((5 * s + 3) % 16 % n : Nat) : Int) :: rest.1, rest.2)

/-! ## Concrete predictors used in examples -/

/-- The predictor of the worked example: controls `[3.0, 1.0, 2.0]`, cases `[5.0, 4.0]`. -/
def examplePredictor : Predictor ℚ :=
  Predictor.new [3, 1, 2] [5, 4]

/-- A predictor over the integers with a tie between a control and a case. -/
def tiedPredictor : Predictor ℤ :=
  Predictor.new [2, 1, 2] [1, 3]

/-! ## Unchecked reads -/

theorem readAt_of_nonneg {β : Type} (v : List β) (i : Int) (h : 0 ≤ i) :
    readAt v i = v[i.toNat]? := by
  unfold readAt
  rw [if_neg (not_lt.mpr h)]

theorem readAt_of_neg {β : Type} (v : List β) (i : Int) (h : i < 0) :
    readAt v i = none := by
  unfold readAt
  rw [if_pos h]

theorem readAt_isSome_iff {β : Type} (v : List β) (i : Int) :
    (readAt v i).isSome = true ↔ 0 ≤ i ∧ i < (v.length : Int) := by
  by_cases h : i < 0
  · rw [readAt_of_neg v i h]
    simp only [Option.isSome_none, Bool.false_eq_true, false_iff, not_and, not_lt]
    omega
  · rw [readAt_of_nonneg v i (not_lt.mp h), Option.isSome_iff_exists]
    constructor
    · rintro ⟨a, ha⟩
      have := (List.getElem?_eq_some.mp ha).1
      omega
    · rintro ⟨_, h2⟩
      have h3 : i.toNat < v.length := by omega
      exact ⟨v[i.toNat], List.getElem?_eq_getElem h3⟩

theorem readAt_ofNat {β : Type} (v : List β) (n : Nat) : readAt v (n : Int) = v[n]? := by
  rw [readAt_of_nonneg v n (Int.ofNat_nonneg n), Int.toNat_ofNat]

/-- The logical sequence of a predictor is the concatenation of controls and cases, at every
`int` index. -/
theorem Predictor.get_new {α : Type} (controls cases : List α) (i : Int) :
    (Predictor.new controls cases).get i = readAt (controls ++ cases) i := by
  unfold Predictor.get Predictor.new
  simp only
  by_cases h0 : i < 0
  · have h1 : i < (controls.length : Int) := by omega
    rw [if_pos h1, readAt_of_neg _ _ h0, readAt_of_neg _ _ h0]
  · have h0' : 0 ≤ i := not_lt.mp h0
    by_cases h1 : i < (controls.length : Int)
    · rw [if_pos h1, readAt_of_nonneg _ _ h0', readAt_of_nonneg _ _ h0']
      have h2 : i.toNat < controls.length := by omega
      rw [List.getElem?_append_left h2]
    · rw [if_neg h1, readAt_of_nonneg _ _ (by omega), readAt_of_nonneg _ _ h0']
      have h2 : controls.length ≤ i.toNat := by omega
      rw [List.getElem?_append_right h2]
      congr 1
      omega

theorem Predictor.get_isSome_iff {α : Type} (controls cases : List α) (i : Int) :
    ((Predictor.new controls cases).get i).isSome = true ↔
      0 ≤ i ∧ i < (Predictor.new controls cases).nTotal := by
  rw [Predictor.get_new, readAt_isSome_iff]
  simp [Predictor.new]

/-! ## Strict weak orderings and the insertion sort -/

theorem StrictWeakOn.asymm {comp : Int → Int → Option Bool} {l : List Int}
    (h : StrictWeakOn comp l) {a b : Int} (ha : a ∈ l) (hb : b ∈ l)
    (hab : comp a b = some true) : comp b a ≠ some true := fun hba =>
  h.irrefl a ha (h.trans a ha b hb a ha hab hba)

/-- Negative transitivity: if `a` does not come before `b` and `b` does not come before `c`,
then `a` does not come before `c`. -/
theorem StrictWeakOn.not_lt_trans {comp : Int → Int → Option Bool} {l : List Int}
    (h : StrictWeakOn comp l) {a b c : Int} (ha : a ∈ l) (hb : b ∈ l) (hc : c ∈ l)
    (hab : comp a b ≠ some true) (hbc : comp b c ≠ some true) : comp a c ≠ some true := by
  intro hac
  by_cases hba : comp b a = some true
  · exact hbc (h.trans b hb a ha c hc hba hac)
  · by_cases hcb : comp c b = some true
    · exact hab (h.trans a ha c hc b hb hac hcb)
    · exact (h.incomp a ha b hb c hc hab hba hbc hcb).1 hac

theorem StrictWeakOn.mono {comp : Int → Int → Option Bool} {l l' : List Int}
    (h : StrictWeakOn comp l) (hsub : ∀ a ∈ l', a ∈ l) : StrictWeakOn comp l' where
  defined := fun a ha b hb => h.defined a (hsub a ha) b (hsub b hb)
  irrefl := fun a ha => h.irrefl a (hsub a ha)
  trans := fun a ha b hb c hc => h.trans a (hsub a ha) b (hsub b hb) c (hsub c hc)
  incomp := fun a ha b hb c hc => h.incomp a (hsub a ha) b (hsub b hb) c (hsub c hc)

theorem insertSorted_spec {comp : Int → Int → Option Bool} {l : List Int}
    (h : StrictWeakOn comp l) (x : Int) (hx : x ∈ l) :
    ∀ s : List Int, (∀ a ∈ s, a ∈ l) → SortedBy comp s →
      ∃ r, insertSorted comp x s = some r ∧ r.Perm (x :: s) ∧ SortedBy comp r := by
  intro s
  induction s with
  | nil =>
    intro _ _
    exact ⟨[x], rfl, List.Perm.refl _, List.pairwise_singleton _ _⟩
  | cons y ys ih =>
    intro hsub hsorted
    have hy : y ∈ l := hsub y (List.mem_cons_self y ys)
    have hys : ∀ a ∈ ys, a ∈ l := fun a ha => hsub a (List.mem_cons_of_mem y ha)
    obtain ⟨hy_le, hys_sorted⟩ := List.pairwise_cons.mp hsorted
    obtain ⟨b, hb⟩ := Option.isSome_iff_exists.mp (h.defined y hy x hx)
    cases b with
    | true =>
      obtain ⟨r, hr, hperm, hrs⟩ := ih hys hys_sorted
      refine ⟨y :: r, ?_, ?_, ?_⟩
      · simp [insertSorted, hb, hr]
      · exact ((List.Perm.cons y hperm).trans (List.Perm.swap x y ys))
      · refine List.pairwise_cons.mpr ⟨fun z hz => ?_, hrs⟩
        rcases List.mem_cons.mp (hperm.subset hz) with rfl | hz'
        · exact h.asymm hy hx hb
        · exact hy_le z hz'
    | false =>
      refine ⟨x :: y :: ys, ?_, List.Perm.refl _, ?_⟩
      · simp [insertSorted, hb]
      · refine List.pairwise_cons.mpr ⟨fun z hz => ?_, hsorted⟩
        have hyx : comp y x ≠ some true := by rw [hb]; simp
        rcases List.mem_cons.mp hz with rfl | hz'
        · exact hyx
        · exact h.not_lt_trans (hys z hz') hy hx (hy_le z hz') hyx

theorem insertionSort_spec {comp : Int → Int → Option Bool} {l : List Int}
    (h : StrictWeakOn comp l) :
    ∀ s : List Int, (∀ a ∈ s, a ∈ l) →
      ∃ r, insertionSort comp s = some r ∧ r.Perm s ∧ SortedBy comp r := by
  intro s
  induction s with
  | nil =>
    intro _
    exact ⟨[], rfl, List.Perm.refl _, List.Pairwise.nil⟩
  | cons x xs ih =>
    intro hsub
    obtain ⟨t, ht, htperm, hts⟩ := ih (fun a ha => hsub a (List.mem_cons_of_mem x ha))
    have htl : ∀ a ∈ t, a ∈ l := fun a ha =>
      hsub a (List.mem_cons_of_mem x (htperm.subset ha))
    obtain ⟨r, hr, hrperm, hrs⟩ :=
      insertSorted_spec h x (hsub x (List.mem_cons_self x xs)) t htl hts
    refine ⟨r, ?_, hrperm.trans (List.Perm.cons x htperm), hrs⟩
    simp [insertionSort, ht, hr]

/-- The insertion sort meets the contract of `std::sort`. -/
theorem insertionSort_contract : StdSortContract insertionSort := fun _ l h =>
  insertionSort_spec h l (fun _ ha => ha)

/-! ## The index vector -/

theorem mem_iota (n a : Int) : a ∈ iota n ↔ 0 ≤ a ∧ a < n := by
  unfold iota
  rw [List.mem_map]
  constructor
  · rintro ⟨k, hk, rfl⟩
    have := List.mem_range.mp hk
    constructor
    · exact Int.ofNat_nonneg k
    · show (k : Int) < n
      omega
  · rintro ⟨h0, h1⟩
    refine ⟨a.toNat, List.mem_range.mpr (by omega), ?_⟩
    show ((a.toNat : Nat) : Int) = a
    omega

theorem nodup_iota (n : Int) : (iota n).Nodup := by
  unfold iota
  exact (List.nodup_range n.toNat).map (fun a b h => Int.ofNat.inj h)

theorem length_iota (n : Int) : (iota n).length = n.toNat := by
  unfold iota
  rw [List.length_map, List.length_range]

/-- A permutation of the index vector has length `n` and holds each index of `[0, n)` exactly
once. -/
theorem perm_iota_spec {r : List Int} {n : Int} (hn : 0 ≤ n) (h : r.Perm (iota n)) :
    (r.length : Int) = n ∧ ∀ i : Int, 0 ≤ i → i < n → r.count i = 1 := by
  constructor
  · rw [h.length_eq, length_iota]
    omega
  · intro i h0 h1
    rw [h.count_eq]
    exact List.count_eq_one_of_mem (nodup_iota n) ((mem_iota n i).mpr ⟨h0, h1⟩)

/-! ## The comparators -/

theorem PredictorComparator_of_get {P α : Type} [PredictorLike P α] [LinearOrder α]
    (p : P) {i j : Int} {a b : α}
    (hi : PredictorLike.get p i = some a) (hj : PredictorLike.get p j = some b) :
    PredictorComparator p i j = some (decide (a < b)) := by
  simp [PredictorComparator, hi, hj]

theorem PredictorReverseComparator_of_get {P α : Type} [PredictorLike P α] [LinearOrder α]
    (p : P) {i j : Int} {a b : α}
    (hi : PredictorLike.get p i = some a) (hj : PredictorLike.get p j = some b) :
    PredictorReverseComparator p i j = some (decide (b < a)) := by
  simp [PredictorReverseComparator, hi, hj]

theorem PredictorComparator_true_iff {P α : Type} [PredictorLike P α] [LinearOrder α]
    (p : P) {i j : Int} {a b : α}
    (hi : PredictorLike.get p i = some a) (hj : PredictorLike.get p j = some b) :
    PredictorComparator p i j = some true ↔ a < b := by
  rw [PredictorComparator_of_get p hi hj]
  simp

theorem PredictorReverseComparator_true_iff {P α : Type} [PredictorLike P α] [LinearOrder α]
    (p : P) {i j : Int} {a b : α}
    (hi : PredictorLike.get p i = some a) (hj : PredictorLike.get p j = some b) :
    PredictorReverseComparator p i j = some true ↔ b < a := by
  rw [PredictorReverseComparator_of_get p hi hj]
  simp

/-- On indices whose reads are in bounds, `PredictorComparator` is a strict weak ordering. -/
theorem PredictorComparator_strictWeakOn {P α : Type} [PredictorLike P α] [LinearOrder α]
    (p : P) (l : List Int) (hl : ∀ a ∈ l, (PredictorLike.get p a).isSome = true) :
    StrictWeakOn (PredictorComparator p) l where
  defined := by
    intro a ha b hb
    obtain ⟨va, hva⟩ := Option.isSome_iff_exists.mp (hl a ha)
    obtain ⟨vb, hvb⟩ := Option.isSome_iff_exists.mp (hl b hb)
    rw [PredictorComparator_of_get p hva hvb]
    rfl
  irrefl := by
    intro a ha
    obtain ⟨va, hva⟩ := Option.isSome_iff_exists.mp (hl a ha)
    rw [ne_eq, PredictorComparator_true_iff p hva hva]
    exact lt_irrefl va
  trans := by
    intro a ha b hb c hc
    obtain ⟨va, hva⟩ := Option.isSome_iff_exists.mp (hl a ha)
    obtain ⟨vb, hvb⟩ := Option.isSome_iff_exists.mp (hl b hb)
    obtain ⟨vc, hvc⟩ := Option.isSome_iff_exists.mp (hl c hc)
    rw [PredictorComparator_true_iff p hva hvb, PredictorComparator_true_iff p hvb hvc,
      PredictorComparator_true_iff p hva hvc]
    exact lt_trans
  incomp := by
    intro a ha b hb c hc
    obtain ⟨va, hva⟩ := Option.isSome_iff_exists.mp (hl a ha)
    obtain ⟨vb, hvb⟩ := Option.isSome_iff_exists.mp (hl b hb)
    obtain ⟨vc, hvc⟩ := Option.isSome_iff_exists.mp (hl c hc)
    simp only [ne_eq, PredictorComparator_true_iff p hva hvb,
      PredictorComparator_true_iff p hvb hva, PredictorComparator_true_iff p hvb hvc,
      PredictorComparator_true_iff p hvc hvb, PredictorComparator_true_iff p hva hvc,
      PredictorComparator_true_iff p hvc hva, not_lt]
    intro h1 h2 h3 h4
    exact ⟨le_trans h3 h1, le_trans h2 h4⟩

/-- On indices whose reads are in bounds, `PredictorReverseComparator` is a strict weak
ordering. -/
theorem PredictorReverseComparator_strictWeakOn {P α : Type} [PredictorLike P α]
    [LinearOrder α] (p : P) (l : List Int)
    (hl : ∀ a ∈ l, (PredictorLike.get p a).isSome = true) :
    StrictWeakOn (PredictorReverseComparator p) l where
  defined := by
    intro a ha b hb
    obtain ⟨va, hva⟩ := Option.isSome_iff_exists.mp (hl a ha)
    obtain ⟨vb, hvb⟩ := Option.isSome_iff_exists.mp (hl b hb)
    rw [PredictorReverseComparator_of_get p hva hvb]
    rfl
  irrefl := by
    intro a ha
    obtain ⟨va, hva⟩ := Option.isSome_iff_exists.mp (hl a ha)
    rw [ne_eq, PredictorReverseComparator_true_iff p hva hva]
    exact lt_irrefl va
  trans := by
    intro a ha b hb c hc
    obtain ⟨va, hva⟩ := Option.isSome_iff_exists.mp (hl a ha)
    obtain ⟨vb, hvb⟩ := Option.isSome_iff_exists.mp (hl b hb)
    obtain ⟨vc, hvc⟩ := Option.isSome_iff_exists.mp (hl c hc)
    rw [PredictorReverseComparator_true_iff p hva hvb,
      PredictorReverseComparator_true_iff p hvb hvc,
      PredictorReverseComparator_true_iff p hva hvc]
    exact fun h1 h2 => lt_trans h2 h1
  incomp := by
    intro a ha b hb c hc
    obtain ⟨va, hva⟩ := Option.isSome_iff_exists.mp (hl a ha)
    obtain ⟨vb, hvb⟩ := Option.isSome_iff_exists.mp (hl b hb)
    obtain ⟨vc, hvc⟩ := Option.isSome_iff_exists.mp (hl c hc)
    simp only [ne_eq, PredictorReverseComparator_true_iff p hva hvb,
      PredictorReverseComparator_true_iff p hvb hva,
      PredictorReverseComparator_true_iff p hvb hvc,
      PredictorReverseComparator_true_iff p hvc hvb,
      PredictorReverseComparator_true_iff p hva hvc,
      PredictorReverseComparator_true_iff p hvc hva, not_lt]
    intro h1 h2 h3 h4
    exact ⟨le_trans h1 h3, le_trans h4 h2⟩

/-! ## `getPredictorOrder` under the contract of `std::sort` -/

/-- Direction `">"`: the call returns a permutation of the index vector along which the values
never decrease. -/
theorem getPredictorOrder_ascending {P α : Type} [PredictorLike P α] [LinearOrder α]
    (sort : SortRoutine) (hsort : StdSortContract sort) (p : P)
    (hl : ∀ a ∈ iota (PredictorLike.nTotal p), (PredictorLike.get p a).isSome = true) :
    ∃ r, getPredictorOrder sort p ">" = some r ∧ r.Perm (iota (PredictorLike.nTotal p)) ∧
      r.Pairwise (fun a b => ∃ va vb, PredictorLike.get p a = some va ∧
        PredictorLike.get p b = some vb ∧ va ≤ vb) := by
  obtain ⟨r, hr, hperm, hsorted⟩ :=
    hsort _ _ (PredictorComparator_strictWeakOn p (iota (PredictorLike.nTotal p)) hl)
  refine ⟨r, ?_, hperm, ?_⟩
  · unfold getPredictorOrder
    simp only [if_true]
    exact hr
  · have hmem : ∀ a ∈ r, (PredictorLike.get p a).isSome = true := fun a ha =>
      hl a (hperm.subset ha)
    refine (List.Pairwise.and_mem.mp hsorted).imp ?_
    rintro a b ⟨ha, hb, hab⟩
    obtain ⟨va, hva⟩ := Option.isSome_iff_exists.mp (hmem a ha)
    obtain ⟨vb, hvb⟩ := Option.isSome_iff_exists.mp (hmem b hb)
    rw [ne_eq, PredictorComparator_true_iff p hvb hva, not_lt] at hab
    exact ⟨va, vb, hva, hvb, hab⟩

/-- Any direction other than `">"`: the call returns a permutation of the index vector along
which the values never increase. -/
theorem getPredictorOrder_descending {P α : Type} [PredictorLike P α] [LinearOrder α]
    (sort : SortRoutine) (hsort : StdSortContract sort) (p : P)
    (hl : ∀ a ∈ iota (PredictorLike.nTotal p), (PredictorLike.get p a).isSome = true)
    (d : String) (hd : d ≠ ">") :
    ∃ r, getPredictorOrder sort p d = some r ∧ r.Perm (iota (PredictorLike.nTotal p)) ∧
      r.Pairwise (fun a b => ∃ va vb, PredictorLike.get p a = some va ∧
        PredictorLike.get p b = some vb ∧ vb ≤ va) := by
  obtain ⟨r, hr, hperm, hsorted⟩ :=
    hsort _ _ (PredictorReverseComparator_strictWeakOn p (iota (PredictorLike.nTotal p)) hl)
  refine ⟨r, ?_, hperm, ?_⟩
  · unfold getPredictorOrder
    simp only [if_neg hd]
    exact hr
  · have hmem : ∀ a ∈ r, (PredictorLike.get p a).isSome = true := fun a ha =>
      hl a (hperm.subset ha)
    refine (List.Pairwise.and_mem.mp hsorted).imp ?_
    rintro a b ⟨ha, hb, hab⟩
    obtain ⟨va, hva⟩ := Option.isSome_iff_exists.mp (hmem a ha)
    obtain ⟨vb, hvb⟩ := Option.isSome_iff_exists.mp (hmem b hb)
    rw [ne_eq, PredictorReverseComparator_true_iff p hvb hva, not_lt] at hab
    exact ⟨va, vb, hva, hvb, hab⟩

/-- Every index of the index vector of a predictor built by the constructor reads in
bounds. -/
theorem Predictor.get_isSome_of_mem_iota {α : Type} (controls cases : List α) :
    ∀ a ∈ iota (PredictorLike.nTotal (Predictor.new controls cases)),
      (PredictorLike.get (Predictor.new controls cases) a).isSome = true := fun a ha =>
  (Predictor.get_isSome_iff controls cases a).mpr ((mem_iota _ a).mp ha)

/-! ## Uniqueness of the sorted order when values are distinct -/

/-- Two permutations of each other that are both sorted by a relation which is antisymmetric
on their elements are equal. -/
theorem eq_of_perm_of_pairwise {β : Type} {R : β → β → Prop} :
    ∀ (l₁ l₂ : List β), l₁.Perm l₂ →
      (∀ a ∈ l₁, ∀ b ∈ l₁, R a b → R b a → a = b) →
      l₁.Pairwise R → l₂.Pairwise R → l₁ = l₂ := by
  intro l₁
  induction l₁ with
  | nil =>
    intro l₂ hperm _ _ _
    exact (List.nil_perm.mp hperm).symm
  | cons a t ih =>
    intro l₂ hperm hanti h₁ h₂
    cases l₂ with
    | nil => exact absurd hperm.symm.length_eq (by simp)
    | cons b u =>
      obtain ⟨ha, ht⟩ := List.pairwise_cons.mp h₁
      obtain ⟨hb, hu⟩ := List.pairwise_cons.mp h₂
      have hab : a = b := by
        rcases List.mem_cons.mp (hperm.subset (List.mem_cons_self a t)) with h | h
        · exact h
        · rcases List.mem_cons.mp (hperm.symm.subset (List.mem_cons_self b u)) with h' | h'
          · exact h'.symm
          · exact hanti a (List.mem_cons_self a t) b (List.mem_cons_of_mem a h')
              (ha b h') (hb a h)
      subst hab
      have htu : t = u :=
        ih u hperm.cons_inv
          (fun x hx y hy => hanti x (List.mem_cons_of_mem a hx) y (List.mem_cons_of_mem a hy))
          ht hu
      rw [htu]

/-- With pairwise distinct values, two logical indices in range that read the same value are
the same index. -/
theorem Predictor.get_injective_of_nodup {α : Type} (controls cases : List α)
    (hnd : (controls ++ cases).Nodup) (a b : Int)
    (ha : a ∈ iota (Predictor.new controls cases).nTotal)
    (hb : b ∈ iota (Predictor.new controls cases).nTotal)
    (hab : (Predictor.new controls cases).get a = (Predictor.new controls cases).get b) :
    a = b := by
  obtain ⟨ha0, ha1⟩ := (mem_iota _ a).mp ha
  obtain ⟨hb0, hb1⟩ := (mem_iota _ b).mp hb
  have ha1' : a < (controls.length : Int) + (cases.length : Int) := ha1
  have hb1' : b < (controls.length : Int) + (cases.length : Int) := hb1
  have hla : a.toNat < (controls ++ cases).length := by
    rw [List.length_append]; omega
  have hlb : b.toNat < (controls ++ cases).length := by
    rw [List.length_append]; omega
  rw [Predictor.get_new, Predictor.get_new, readAt_of_nonneg _ _ ha0,
    readAt_of_nonneg _ _ hb0, List.getElem?_eq_getElem hla, List.getElem?_eq_getElem hlb,
    Option.some_inj, hnd.getElem_inj_iff] at hab
  omega

/-- When reads of distinct indices give distinct values, any permutation of the index vector
along which the values never decrease is the order returned for direction `">"`. -/
theorem getPredictorOrder_ascending_unique {P α : Type} [PredictorLike P α] [LinearOrder α]
    (sort : SortRoutine) (hsort : StdSortContract sort) (p : P)
    (hl : ∀ a ∈ iota (PredictorLike.nTotal p), (PredictorLike.get p a).isSome = true)
    (hinj : ∀ a ∈ iota (PredictorLike.nTotal p), ∀ b ∈ iota (PredictorLike.nTotal p),
      PredictorLike.get p a = PredictorLike.get p b → a = b)
    (c : List Int) (hc : c.Perm (iota (PredictorLike.nTotal p)))
    (hcs : c.Pairwise (fun a b => ∃ va vb, PredictorLike.get p a = some va ∧
        PredictorLike.get p b = some vb ∧ va ≤ vb)) :
    getPredictorOrder sort p ">" = some c := by
  obtain ⟨r, hr, hperm, hsorted⟩ := getPredictorOrder_ascending sort hsort p hl
  rw [hr]
  congr 1
  refine eq_of_perm_of_pairwise r c (hperm.trans hc.symm) ?_ hsorted hcs
  rintro a ha b hb ⟨va, vb, hva, hvb, hle⟩ ⟨vb', va', hvb', hva', hle'⟩
  refine hinj a (hperm.subset ha) b (hperm.subset hb) ?_
  rw [hva] at hva'
  rw [hvb] at hvb'
  obtain rfl := Option.some_inj.mp hva'
  obtain rfl := Option.some_inj.mp hvb'
  rw [hva, hvb, le_antisymm hle hle']

/-! ## Indexed access and group membership of `Predictor` -/

/-- C5: for a predictor built from `controls` and `cases` and a logical index `i` in
`[0, nTotal)`, `get i` is `controls[i]` when `i < nControls` and `cases[i - nControls]`
otherwise; it is element `i` of `controls ++ cases`, and the read is in bounds (the result is
never `none`). -/
theorem predictor_index_access {α : Type} (controls cases : List α) (i : Int)
    (h0 : 0 ≤ i) (h1 : i < (Predictor.new controls cases).nTotal) :
    (i < (Predictor.new controls cases).nControls →
      ∃ v, controls[i.toNat]? = some v ∧ (Predictor.new controls cases).get i = some v) ∧
    ((Predictor.new controls cases).nControls ≤ i →
      ∃ v, cases[(i - (Predictor.new controls cases).nControls).toNat]? = some v ∧
        (Predictor.new controls cases).get i = some v) ∧
    (Predictor.new controls cases).get i = (controls ++ cases)[i.toNat]? ∧
    ((Predictor.new controls cases).get i).isSome = true := by
  have hsome : ((Predictor.new controls cases).get i).isSome = true :=
    (Predictor.get_isSome_iff controls cases i).mpr ⟨h0, h1⟩
  obtain ⟨v, hv⟩ := Option.isSome_iff_exists.mp hsome
  refine ⟨fun hc => ⟨v, ?_, hv⟩, fun hc => ⟨v, ?_, hv⟩, ?_, hsome⟩
  · have hc' : i < (controls.length : Int) := hc
    have : (Predictor.new controls cases).get i = readAt controls i := by
      unfold Predictor.get
      rw [if_pos hc]
      rfl
    rw [← hv, this, readAt_of_nonneg _ _ h0]
  · have hc' : (controls.length : Int) ≤ i := hc
    have : (Predictor.new controls cases).get i =
        readAt cases (i - (Predictor.new controls cases).nControls) := by
      unfold Predictor.get
      rw [if_neg (not_lt.mpr hc)]
      rfl
    rw [← hv, this, readAt_of_nonneg _ _ (sub_nonneg.mpr hc)]
  · rw [Predictor.get_new, readAt_of_nonneg _ _ h0]

/-- Witness for C5 on the worked example, at the first case slot `i = 3`. -/
theorem predictor_index_access_witness :
    (3 < examplePredictor.nControls →
      ∃ v, ([3, 1, 2] : List ℚ)[(3 : Int).toNat]? = some v ∧ examplePredictor.get 3 = some v) ∧
    (examplePredictor.nControls ≤ 3 →
      ∃ v, ([5, 4] : List ℚ)[((3 : Int) - examplePredictor.nControls).toNat]? = some v ∧
        examplePredictor.get 3 = some v) ∧
    examplePredictor.get 3 = ([3, 1, 2] ++ [5, 4] : List ℚ)[(3 : Int).toNat]? ∧
    (examplePredictor.get 3).isSome = true :=
  predictor_index_access [3, 1, 2] [5, 4] 3 (by decide) (by decide)

/-- C8: for every predictor and every integer `i`, `isControl i` holds iff `i < nControls`,
`isCase i` holds iff `i >= nControls`, `isCase i` is the negation of `isControl i`, and so
exactly one of the two holds. -/
theorem isControl_isCase_partition {α : Type} (controls cases : List α) (i : Int) :
    ((Predictor.new controls cases).isControl i = true ↔
      i < (Predictor.new controls cases).nControls) ∧
    ((Predictor.new controls cases).isCase i = true ↔
      (Predictor.new controls cases).nControls ≤ i) ∧
    (Predictor.new controls cases).isCase i = !(Predictor.new controls cases).isControl i ∧
    (((Predictor.new controls cases).isControl i = true ∧
        (Predictor.new controls cases).isCase i = false) ∨
      ((Predictor.new controls cases).isControl i = false ∧
        (Predictor.new controls cases).isCase i = true)) := by
  unfold Predictor.isControl Predictor.isCase
  by_cases h : i < (Predictor.new controls cases).nControls
  · simp [h, not_le.mpr h]
  · simp [h, not_lt.mp h]

/-- C9: for every predictor and every integer `i`, `isValid i` holds iff `i < nTotal`; for a
negative `i` it holds although `i` is outside `[0, nTotal)` and the read `get i` is out of
bounds. -/
theorem isValid_ignores_negative {α : Type} (controls cases : List α) (i : Int) :
    ((Predictor.new controls cases).isValid i = true ↔
      i < (Predictor.new controls cases).nTotal) ∧
    (i < 0 →
      (Predictor.new controls cases).isValid i = true ∧
      ¬ (0 ≤ i ∧ i < (Predictor.new controls cases).nTotal) ∧
      (Predictor.new controls cases).get i = none) := by
  refine ⟨by simp [Predictor.isValid], fun hneg => ⟨?_, fun h => absurd h.1 (not_le.mpr hneg), ?_⟩⟩
  · have : i < (Predictor.new controls cases).nTotal := by
      show i < (controls.length : Int) + (cases.length : Int)
      omega
    simp [Predictor.isValid, this]
  · rw [Predictor.get_new, readAt_of_neg _ _ hneg]

/-- Witness for C9 on the worked example, at `i = -1`. -/
theorem isValid_ignores_negative_witness :
    (examplePredictor.isValid (-1) = true ↔ (-1 : Int) < examplePredictor.nTotal) ∧
    ((-1 : Int) < 0 →
      examplePredictor.isValid (-1) = true ∧
      ¬ (0 ≤ (-1 : Int) ∧ (-1 : Int) < examplePredictor.nTotal) ∧
      examplePredictor.get (-1) = none) :=
  isValid_ignores_negative [3, 1, 2] [5, 4] (-1)

/-! ## `ResampledPredictor`: indexed access and sizes -/

theorem getElem?_of_mem_range {β : Type} (l : List β) (n : Nat) (h : n < l.length) :
    ∃ k, l[n]? = some k ∧ k ∈ l :=
  ⟨l[n], List.getElem?_eq_getElem h, List.getElem_mem h⟩

/-- C6: for a resampled predictor built by the direct constructor from index sequences of the
required lengths with in-range values, and `i` in `[0, nTotal)`: `get i` is the original
`controls[controlsIdx[i]]` when `i < nControls`, and the original
`cases[casesIdx[i - nControls]]` when `i >= nControls` (reached through the base predictor at
logical index `casesIdx[i - nControls] + nControls`). -/
theorem resampled_index_access {α : Type} (controls cases : List α)
    (controlsIdx casesIdx : List Int)
    (hlc : controlsIdx.length = controls.length)
    (hrc : ∀ k ∈ controlsIdx, 0 ≤ k ∧ k < (controls.length : Int))
    (hla : casesIdx.length = cases.length)
    (hra : ∀ k ∈ casesIdx, 0 ≤ k ∧ k < (cases.length : Int))
    (i : Int) (h0 : 0 ≤ i)
    (h1 : i < (ResampledPredictor.new (Predictor.new controls cases) controlsIdx casesIdx).nTotal) :
    (i < (ResampledPredictor.new (Predictor.new controls cases) controlsIdx casesIdx).nControls →
      ∃ k v, controlsIdx[i.toNat]? = some k ∧ controls[k.toNat]? = some v ∧
        (ResampledPredictor.new (Predictor.new controls cases) controlsIdx casesIdx).get i
          = some v) ∧
    ((ResampledPredictor.new (Predictor.new controls cases) controlsIdx casesIdx).nControls ≤ i →
      ∃ k v, casesIdx[(i - (controls.length : Int)).toNat]? = some k ∧
        cases[k.toNat]? = some v ∧
        (Predictor.new controls cases).get (k + (controls.length : Int)) = some v ∧
        (ResampledPredictor.new (Predictor.new controls cases) controlsIdx casesIdx).get i
          = some v) := by
  have hT : i < (controls.length : Int) + (cases.length : Int) := h1
  constructor
  · intro hc
    have hc' : i < (controls.length : Int) := hc
    obtain ⟨k, hk, hkm⟩ := getElem?_of_mem_range controlsIdx i.toNat (by omega)
    obtain ⟨hk0, hk1⟩ := hrc k hkm
    obtain ⟨v, hv, _⟩ := getElem?_of_mem_range controls k.toNat (by omega)
    refine ⟨k, v, hk, hv, ?_⟩
    unfold ResampledPredictor.get
    rw [if_pos hc]
    show (readAt controlsIdx i).bind (fun k => (Predictor.new controls cases).get k) = some v
    rw [readAt_of_nonneg _ _ h0, hk, Option.some_bind, Predictor.get_new,
      readAt_of_nonneg _ _ hk0, List.getElem?_append_left (by omega), hv]
  · intro hc
    have hc' : (controls.length : Int) ≤ i := hc
    obtain ⟨k, hk, hkm⟩ :=
      getElem?_of_mem_range casesIdx (i - (controls.length : Int)).toNat (by omega)
    obtain ⟨hk0, hk1⟩ := hra k hkm
    obtain ⟨v, hv, _⟩ := getElem?_of_mem_range cases k.toNat (by omega)
    have hbase : (Predictor.new controls cases).get (k + (controls.length : Int)) = some v := by
      rw [Predictor.get_new, readAt_of_nonneg _ _ (by omega),
        List.getElem?_append_right (by omega), ← hv]
      congr 1
      omega
    refine ⟨k, v, hk, hv, hbase, ?_⟩
    unfold ResampledPredictor.get
    rw [if_neg (not_lt.mpr hc)]
    show (readAt casesIdx (i - (controls.length : Int))).bind
      (fun k => (Predictor.new controls cases).get (k + (controls.length : Int))) = some v
    rw [readAt_of_nonneg _ _ (by omega), hk, Option.some_bind, hbase]

/-- Witness for C6: the tied predictor resampled with `controlsIdx = [2, 2, 0]` and
`casesIdx = [1, 1]`, read at the case slot `i = 4`. -/
theorem resampled_index_access_witness :
    (4 < (ResampledPredictor.new (Predictor.new ([2, 1, 2] : List ℤ) [1, 3])
        [2, 2, 0] [1, 1]).nControls →
      ∃ k v, ([2, 2, 0] : List Int)[(4 : Int).toNat]? = some k ∧
        ([2, 1, 2] : List ℤ)[k.toNat]? = some v ∧
        (ResampledPredictor.new (Predictor.new ([2, 1, 2] : List ℤ) [1, 3])
          [2, 2, 0] [1, 1]).get 4 = some v) ∧
    ((ResampledPredictor.new (Predictor.new ([2, 1, 2] : List ℤ) [1, 3])
        [2, 2, 0] [1, 1]).nControls ≤ 4 →
      ∃ k v, ([1, 1] : List Int)[((4 : Int) - (([2, 1, 2] : List ℤ).length : Int)).toNat]?
          = some k ∧
        ([1, 3] : List ℤ)[k.toNat]? = some v ∧
        (Predictor.new ([2, 1, 2] : List ℤ) [1, 3]).get
          (k + (([2, 1, 2] : List ℤ).length : Int)) = some v ∧
        (ResampledPredictor.new (Predictor.new ([2, 1, 2] : List ℤ) [1, 3])
          [2, 2, 0] [1, 1]).get 4 = some v) :=
  resampled_index_access [2, 1, 2] [1, 3] [2, 2, 0] [1, 1] rfl (by decide) rfl (by decide)
    4 (by decide) (by decide)

/-- C10: a resampled predictor built by the direct constructor has the `nControls`, `nCases`
and `nTotal` of its source predictor (the sizes of the original groups, with
`nTotal = nControls + nCases`), whatever the index sequences; and when the index sequences
have lengths `nControls` and `nCases`, so have the resampled `getControls` and `getCases`. -/
theorem resampled_sizes_preserved {α : Type} (controls cases : List α)
    (controlsIdx casesIdx : List Int) :
    (ResampledPredictor.new (Predictor.new controls cases) controlsIdx casesIdx).nControls
      = (Predictor.new controls cases).nControls ∧
    (ResampledPredictor.new (Predictor.new controls cases) controlsIdx casesIdx).nCases
      = (Predictor.new controls cases).nCases ∧
    (ResampledPredictor.new (Predictor.new controls cases) controlsIdx casesIdx).nTotal
      = (Predictor.new controls cases).nTotal ∧
    (ResampledPredictor.new (Predictor.new controls cases) controlsIdx casesIdx).nControls
      = (controls.length : Int) ∧
    (ResampledPredictor.new (Predictor.new controls cases) controlsIdx casesIdx).nCases
      = (cases.length : Int) ∧
    (ResampledPredictor.new (Predictor.new controls cases) controlsIdx casesIdx).nTotal
      = (ResampledPredictor.new (Predictor.new controls cases) controlsIdx casesIdx).nControls
        + (ResampledPredictor.new (Predictor.new controls cases) controlsIdx casesIdx).nCases ∧
    ((controlsIdx.length : Int) = (Predictor.new controls cases).nControls →
      ((ResampledPredictor.new (Predictor.new controls cases) controlsIdx
          casesIdx).getControls.length : Int)
        = (ResampledPredictor.new (Predictor.new controls cases) controlsIdx casesIdx).nControls) ∧
    ((casesIdx.length : Int) = (Predictor.new controls cases).nCases →
      ((ResampledPredictor.new (Predictor.new controls cases) controlsIdx
          casesIdx).getCases.length : Int)
        = (ResampledPredictor.new (Predictor.new controls cases) controlsIdx casesIdx).nCases) := by
  refine ⟨rfl, rfl, rfl, rfl, rfl, rfl, fun h => ?_, fun h => ?_⟩
  · show ((getResampledVector controls controlsIdx).length : Int) = (controls.length : Int)
    unfold getResampledVector
    rw [List.length_map]
    exact h
  · show ((getResampledVector cases casesIdx).length : Int) = (cases.length : Int)
    unfold getResampledVector
    rw [List.length_map]
    exact h

/-! ## The order returned by `getPredictorOrder` on a `Predictor` -/

/-- C1: for every predictor built from controls and cases over a totally ordered value
domain, the order for direction `">"` is returned and is a permutation of the indices
`0 .. nTotal-1` (length `nTotal`, each index exactly once) in which every adjacent pair
`(a, b)` satisfies `predictor[a] <= predictor[b]`; for `nTotal = 0` it is empty. -/
theorem getOrder_ascending_permutation {α : Type} [LinearOrder α]
    (sort : SortRoutine) (hsort : StdSortContract sort) (controls cases : List α) :
    ∃ r, getPredictorOrder sort (Predictor.new controls cases) ">" = some r ∧
      r.Perm (iota (Predictor.new controls cases).nTotal) ∧
      (r.length : Int) = (Predictor.new controls cases).nTotal ∧
      (∀ i : Int, 0 ≤ i → i < (Predictor.new controls cases).nTotal → r.count i = 1) ∧
      r.Chain' (fun a b => ∃ va vb, (Predictor.new controls cases).get a = some va ∧
        (Predictor.new controls cases).get b = some vb ∧ va ≤ vb) ∧
      ((Predictor.new controls cases).nTotal = 0 → r = []) := by
  obtain ⟨r, hr, hperm, hsorted⟩ := getPredictorOrder_ascending sort hsort
    (Predictor.new controls cases) (Predictor.get_isSome_of_mem_iota controls cases)
  have hn : (0 : Int) ≤ (Predictor.new controls cases).nTotal := by
    show (0 : Int) ≤ (controls.length : Int) + (cases.length : Int)
    omega
  obtain ⟨hlen, hcount⟩ := perm_iota_spec hn hperm
  refine ⟨r, hr, hperm, hlen, hcount, hsorted.chain', fun h0 => ?_⟩
  rw [h0] at hlen
  exact List.length_eq_zero.mp (by exact_mod_cast hlen)

/-- Witness for C1: the insertion sort on the predictor with ties. -/
theorem getOrder_ascending_permutation_witness :
    StdSortContract insertionSort ∧
    ∃ r, getPredictorOrder insertionSort tiedPredictor ">" = some r ∧
      r.Perm (iota tiedPredictor.nTotal) ∧
      (r.length : Int) = tiedPredictor.nTotal ∧
      (∀ i : Int, 0 ≤ i → i < tiedPredictor.nTotal → r.count i = 1) ∧
      r.Chain' (fun a b => ∃ va vb, tiedPredictor.get a = some va ∧
        tiedPredictor.get b = some vb ∧ va ≤ vb) ∧
      (tiedPredictor.nTotal = 0 → r = []) :=
  ⟨insertionSort_contract,
    getOrder_ascending_permutation insertionSort insertionSort_contract [2, 1, 2] [1, 3]⟩

/-- C2: for the predictor built from controls `[3.0, 1.0, 2.0]` and cases `[5.0, 4.0]`, the
order for direction `">"` is exactly `[1, 2, 0, 4, 3]`, whichever conforming sorting routine
is used. -/
theorem examplePredictor_order_exact (sort : SortRoutine) (hsort : StdSortContract sort) :
    getPredictorOrder sort examplePredictor ">" = some [1, 2, 0, 4, 3] := by
  refine getPredictorOrder_ascending_unique sort hsort examplePredictor
    (Predictor.get_isSome_of_mem_iota [3, 1, 2] [5, 4])
    (fun a ha b hb hab =>
      Predictor.get_injective_of_nodup [3, 1, 2] [5, 4] (by decide) a b ha hb hab)
    [1, 2, 0, 4, 3] (by decide) ?_
  have h0 : PredictorLike.get examplePredictor 0 = some 3 := rfl
  have h1 : PredictorLike.get examplePredictor 1 = some 1 := rfl
  have h2 : PredictorLike.get examplePredictor 2 = some 2 := rfl
  have h3 : PredictorLike.get examplePredictor 3 = some 5 := rfl
  have h4 : PredictorLike.get examplePredictor 4 = some 4 := rfl
  simp only [List.pairwise_cons, List.mem_cons, List.mem_singleton, forall_eq_or_imp, forall_eq,
    List.not_mem_nil, false_implies, implies_true, and_true, List.Pairwise.nil,
    h0, h1, h2, h3, h4, Option.some.injEq, exists_and_left, exists_eq_left']
  norm_num

/-- Witness for C2: the insertion sort returns `[1, 2, 0, 4, 3]`. -/
theorem examplePredictor_order_exact_witness :
    StdSortContract insertionSort ∧
    getPredictorOrder insertionSort examplePredictor ">" = some [1, 2, 0, 4, 3] :=
  ⟨insertionSort_contract, examplePredictor_order_exact insertionSort insertionSort_contract⟩

/-- C3: for every predictor whose values are pairwise distinct, the order for direction `"<"`
is exactly the reverse of the order for direction `">"`. -/
theorem getOrder_reverse_when_distinct {α : Type} [LinearOrder α]
    (sort : SortRoutine) (hsort : StdSortContract sort) (controls cases : List α)
    (hnd : (controls ++ cases).Nodup) :
    ∃ r, getPredictorOrder sort (Predictor.new controls cases) ">" = some r ∧
      getPredictorOrder sort (Predictor.new controls cases) "<" = some r.reverse := by
  obtain ⟨d, hd, hperm, hsorted⟩ := getPredictorOrder_descending sort hsort
    (Predictor.new controls cases) (Predictor.get_isSome_of_mem_iota controls cases)
    "<" (by decide)
  refine ⟨d.reverse, ?_, by rw [List.reverse_reverse]; exact hd⟩
  refine getPredictorOrder_ascending_unique sort hsort (Predictor.new controls cases)
    (Predictor.get_isSome_of_mem_iota controls cases)
    (fun a ha b hb hab =>
      Predictor.get_injective_of_nodup controls cases hnd a b ha hb hab)
    d.reverse ((List.reverse_perm d).trans hperm) ?_
  rw [List.pairwise_reverse]
  refine hsorted.imp ?_
  rintro a b ⟨va, vb, hva, hvb, hle⟩
  exact ⟨vb, va, hvb, hva, hle⟩

/-- Witness for C3: the insertion sort on distinct integer values. -/
theorem getOrder_reverse_when_distinct_witness :
    StdSortContract insertionSort ∧ (([3, 1, 2] : List ℤ) ++ [5, 4]).Nodup ∧
    ∃ r, getPredictorOrder insertionSort (Predictor.new ([3, 1, 2] : List ℤ) [5, 4]) ">"
        = some r ∧
      getPredictorOrder insertionSort (Predictor.new ([3, 1, 2] : List ℤ) [5, 4]) "<"
        = some r.reverse :=
  ⟨insertionSort_contract, by decide,
    getOrder_reverse_when_distinct insertionSort insertionSort_contract
      [3, 1, 2] [5, 4] (by decide)⟩

/-- C4: for every predictor, tied values included, the order for direction `"<"` is returned
and is a permutation of the indices `0 .. nTotal-1` in which every adjacent pair `(a, b)`
satisfies `predictor[a] >= predictor[b]`. -/
theorem getOrder_descending_permutation {α : Type} [LinearOrder α]
    (sort : SortRoutine) (hsort : StdSortContract sort) (controls cases : List α) :
    ∃ r, getPredictorOrder sort (Predictor.new controls cases) "<" = some r ∧
      r.Perm (iota (Predictor.new controls cases).nTotal) ∧
      (r.length : Int) = (Predictor.new controls cases).nTotal ∧
      (∀ i : Int, 0 ≤ i → i < (Predictor.new controls cases).nTotal → r.count i = 1) ∧
      r.Chain' (fun a b => ∃ va vb, (Predictor.new controls cases).get a = some va ∧
        (Predictor.new controls cases).get b = some vb ∧ va ≥ vb) := by
  obtain ⟨r, hr, hperm, hsorted⟩ := getPredictorOrder_descending sort hsort
    (Predictor.new controls cases) (Predictor.get_isSome_of_mem_iota controls cases)
    "<" (by decide)
  have hn : (0 : Int) ≤ (Predictor.new controls cases).nTotal := by
    show (0 : Int) ≤ (controls.length : Int) + (cases.length : Int)
    omega
  obtain ⟨hlen, hcount⟩ := perm_iota_spec hn hperm
  exact ⟨r, hr, hperm, hlen, hcount, hsorted.chain'⟩

/-- Witness for C4: the insertion sort on the predictor with ties. -/
theorem getOrder_descending_permutation_witness :
    StdSortContract insertionSort ∧
    ∃ r, getPredictorOrder insertionSort tiedPredictor "<" = some r ∧
      r.Perm (iota tiedPredictor.nTotal) ∧
      (r.length : Int) = tiedPredictor.nTotal ∧
      (∀ i : Int, 0 ≤ i → i < tiedPredictor.nTotal → r.count i = 1) ∧
      r.Chain' (fun a b => ∃ va vb, tiedPredictor.get a = some va ∧
        tiedPredictor.get b = some vb ∧ va ≥ vb) :=
  ⟨insertionSort_contract,
    getOrder_descending_permutation insertionSort insertionSort_contract [2, 1, 2] [1, 3]⟩

/-- C7: for every predictor-like object and indices `i`, `j`, `k` whose reads are in bounds,
`PredictorComparator i j` returns whether `predictor[i] < predictor[j]` and
`PredictorReverseComparator i j` whether `predictor[j] < predictor[i]`; each comparator is
irreflexive, transitive, has transitive incomparability, and on a tie
`predictor[i] = predictor[j]` neither returns true for `(i, j)` or `(j, i)`. -/
theorem comparators_strict_weak {P α : Type} [PredictorLike P α] [LinearOrder α]
    (p : P) (i j k : Int) (vi vj vk : α)
    (hi : PredictorLike.get p i = some vi) (hj : PredictorLike.get p j = some vj)
    (hk : PredictorLike.get p k = some vk) :
    PredictorComparator p i j = some (decide (vi < vj)) ∧
    PredictorReverseComparator p i j = some (decide (vj < vi)) ∧
    PredictorComparator p i i = some false ∧
    PredictorReverseComparator p i i = some false ∧
    (PredictorComparator p i j = some true → PredictorComparator p j k = some true →
      PredictorComparator p i k = some true) ∧
    (PredictorReverseComparator p i j = some true →
      PredictorReverseComparator p j k = some true →
      PredictorReverseComparator p i k = some true) ∧
    (PredictorComparator p i j = some false → PredictorComparator p j i = some false →
      PredictorComparator p j k = some false → PredictorComparator p k j = some false →
      PredictorComparator p i k = some false ∧ PredictorComparator p k i = some false) ∧
    (PredictorReverseComparator p i j = some false →
      PredictorReverseComparator p j i = some false →
      PredictorReverseComparator p j k = some false →
      PredictorReverseComparator p k j = some false →
      PredictorReverseComparator p i k = some false ∧
        PredictorReverseComparator p k i = some false) ∧
    (vi = vj →
      PredictorComparator p i j = some false ∧ PredictorComparator p j i = some false ∧
      PredictorReverseComparator p i j = some false ∧
      PredictorReverseComparator p j i = some false) := by
  simp only [PredictorComparator_of_get p hi hj, PredictorComparator_of_get p hj hi,
    PredictorComparator_of_get p hi hi, PredictorComparator_of_get p hj hk,
    PredictorComparator_of_get p hk hj, PredictorComparator_of_get p hi hk,
    PredictorComparator_of_get p hk hi,
    PredictorReverseComparator_of_get p hi hj, PredictorReverseComparator_of_get p hj hi,
    PredictorReverseComparator_of_get p hi hi, PredictorReverseComparator_of_get p hj hk,
    PredictorReverseComparator_of_get p hk hj, PredictorReverseComparator_of_get p hi hk,
    PredictorReverseComparator_of_get p hk hi,
    Option.some.injEq, decide_eq_true_eq, decide_eq_false_iff_not, not_lt, lt_irrefl,
    decide_False, true_and]
  refine ⟨fun h1 h2 => lt_trans h1 h2, fun h1 h2 => lt_trans h2 h1,
    fun h1 h2 h3 h4 => ⟨le_trans h3 h1, le_trans h2 h4⟩,
    fun h1 h2 h3 h4 => ⟨le_trans h1 h3, le_trans h4 h2⟩, fun h => ?_⟩
  subst h
  exact ⟨le_refl _, le_refl _, le_refl _, le_refl _⟩

/-- Witness for C7: the predictor with ties at the indices `0`, `2` (a tie) and `4`. -/
theorem comparators_strict_weak_witness :
    PredictorComparator tiedPredictor 0 2 = some (decide ((2 : ℤ) < 2)) ∧
    PredictorReverseComparator tiedPredictor 0 2 = some (decide ((2 : ℤ) < 2)) ∧
    PredictorComparator tiedPredictor 0 0 = some false ∧
    PredictorReverseComparator tiedPredictor 0 0 = some false ∧
    (PredictorComparator tiedPredictor 0 2 = some true →
      PredictorComparator tiedPredictor 2 4 = some true →
      PredictorComparator tiedPredictor 0 4 = some true) ∧
    (PredictorReverseComparator tiedPredictor 0 2 = some true →
      PredictorReverseComparator tiedPredictor 2 4 = some true →
      PredictorReverseComparator tiedPredictor 0 4 = some true) ∧
    (PredictorComparator tiedPredictor 0 2 = some false →
      PredictorComparator tiedPredictor 2 0 = some false →
      PredictorComparator tiedPredictor 2 4 = some false →
      PredictorComparator tiedPredictor 4 2 = some false →
      PredictorComparator tiedPredictor 0 4 = some false ∧
        PredictorComparator tiedPredictor 4 0 = some false) ∧
    (PredictorReverseComparator tiedPredictor 0 2 = some false →
      PredictorReverseComparator tiedPredictor 2 0 = some false →
      PredictorReverseComparator tiedPredictor 2 4 = some false →
      PredictorReverseComparator tiedPredictor 4 2 = some false →
      PredictorReverseComparator tiedPredictor 0 4 = some false ∧
        PredictorReverseComparator tiedPredictor 4 0 = some false) ∧
    ((2 : ℤ) = 2 →
      PredictorComparator tiedPredictor 0 2 = some false ∧
      PredictorComparator tiedPredictor 2 0 = some false ∧
      PredictorReverseComparator tiedPredictor 0 2 = some false ∧
      PredictorReverseComparator tiedPredictor 2 0 = some false) :=
  comparators_strict_weak tiedPredictor 0 2 4 2 2 3 rfl rfl rfl

/-- Witness for C10: the tied predictor resampled with `controlsIdx = [2, 2, 0]` and
`casesIdx = [1, 1]` has sizes 3, 2 and 5, and its resampled groups have lengths 3 and 2. -/
theorem resampled_sizes_preserved_witness :
    (ResampledPredictor.new tiedPredictor [2, 2, 0] [1, 1]).nControls = 3 ∧
    (ResampledPredictor.new tiedPredictor [2, 2, 0] [1, 1]).nCases = 2 ∧
    (ResampledPredictor.new tiedPredictor [2, 2, 0] [1, 1]).nTotal = 5 ∧
    ((ResampledPredictor.new tiedPredictor [2, 2, 0] [1, 1]).getControls.length : Int) = 3 ∧
    ((ResampledPredictor.new tiedPredictor [2, 2, 0] [1, 1]).getCases.length : Int) = 2 :=
  have h := resampled_sizes_preserved ([2, 1, 2] : List ℤ) [1, 3] [2, 2, 0] [1, 1]
  ⟨h.2.2.2.1, h.2.2.2.2.1, h.2.2.1, h.2.2.2.2.2.2.1 rfl, h.2.2.2.2.2.2.2 rfl⟩

/-! ## `ResampledPredictor`: reads under the precondition of the direct constructor -/

theorem readAt_map {β γ : Type} (f : β → γ) (l : List β) (i : Int) :
    readAt (l.map f) i = (readAt l i).map f := by
  by_cases h : i < 0
  · rw [readAt_of_neg _ _ h, readAt_of_neg _ _ h]
    rfl
  · rw [readAt_of_nonneg _ _ (not_lt.mp h), readAt_of_nonneg _ _ (not_lt.mp h),
      List.getElem?_map]

theorem readAt_mem {β : Type} (l : List β) (i : Int) (h0 : 0 ≤ i) (h1 : i < (l.length : Int)) :
    ∃ k, readAt l i = some k ∧ l[i.toNat]? = some k ∧ k ∈ l := by
  have h : i.toNat < l.length := by omega
  exact ⟨l[i.toNat], by rw [readAt_of_nonneg _ _ h0, List.getElem?_eq_getElem h],
    List.getElem?_eq_getElem h, List.getElem_mem h⟩

/-- A control slot of a resampled predictor: the read of `controlsIdx` is in bounds, the index
read is in `[0, nControls)`, and the base access returns the original control there. -/
theorem ResampledPredictor.get_control_slot {α : Type} (controls cases : List α)
    (controlsIdx casesIdx : List Int)
    (hlc : controlsIdx.length = controls.length)
    (hrc : ∀ k ∈ controlsIdx, 0 ≤ k ∧ k < (controls.length : Int))
    (i : Int) (h0 : 0 ≤ i) (h1 : i < (controls.length : Int)) :
    ∃ k v, readAt controlsIdx i = some k ∧ controlsIdx[i.toNat]? = some k ∧
      (0 ≤ k ∧ k < (controls.length : Int)) ∧
      readAt controls k = some v ∧ controls[k.toNat]? = some v ∧
      (ResampledPredictor.new (Predictor.new controls cases) controlsIdx casesIdx).get i
        = some v := by
  obtain ⟨k, hk, hk', hkm⟩ := readAt_mem controlsIdx i h0 (by omega)
  obtain ⟨hk0, hk1⟩ := hrc k hkm
  obtain ⟨v, hv, hv', _⟩ := readAt_mem controls k hk0 hk1
  refine ⟨k, v, hk, hk', ⟨hk0, hk1⟩, hv, hv', ?_⟩
  unfold ResampledPredictor.get
  have hc : i < (ResampledPredictor.new (Predictor.new controls cases)
      controlsIdx casesIdx).nControls := h1
  rw [if_pos hc]
  show (readAt controlsIdx i).bind (fun k => (Predictor.new controls cases).get k) = some v
  rw [hk, Option.some_bind, Predictor.get_new, readAt_of_nonneg _ _ hk0,
    List.getElem?_append_left (by omega), hv']

/-- A case slot of a resampled predictor: the read of `casesIdx` is in bounds, the index read
is in `[0, nCases)`, and the base access at that index plus `nControls` returns the original
case there. -/
theorem ResampledPredictor.get_case_slot {α : Type} (controls cases : List α)
    (controlsIdx casesIdx : List Int)
    (hla : casesIdx.length = cases.length)
    (hra : ∀ k ∈ casesIdx, 0 ≤ k ∧ k < (cases.length : Int))
    (i : Int) (h0 : (controls.length : Int) ≤ i)
    (h1 : i < (controls.length : Int) + (cases.length : Int)) :
    ∃ k v, readAt casesIdx (i - (controls.length : Int)) = some k ∧
      casesIdx[(i - (controls.length : Int)).toNat]? = some k ∧
      (0 ≤ k ∧ k < (cases.length : Int)) ∧
      readAt cases k = some v ∧ cases[k.toNat]? = some v ∧
      (Predictor.new controls cases).get (k + (controls.length : Int)) = some v ∧
      (ResampledPredictor.new (Predictor.new controls cases) controlsIdx casesIdx).get i
        = some v := by
  obtain ⟨k, hk, hk', hkm⟩ :=
    readAt_mem casesIdx (i - (controls.length : Int)) (by omega) (by omega)
  obtain ⟨hk0, hk1⟩ := hra k hkm
  obtain ⟨v, hv, hv', _⟩ := readAt_mem cases k hk0 hk1
  have hbase : (Predictor.new controls cases).get (k + (controls.length : Int)) = some v := by
    rw [Predictor.get_new, readAt_of_nonneg _ _ (by omega),
      List.getElem?_append_right (by omega), ← hv']
    congr 1
    omega
  refine ⟨k, v, hk, hk', ⟨hk0, hk1⟩, hv, hv', hbase, ?_⟩
  unfold ResampledPredictor.get
  have hc : ¬ i < (ResampledPredictor.new (Predictor.new controls cases)
      controlsIdx casesIdx).nControls := not_lt.mpr h0
  rw [if_neg hc]
  show (readAt casesIdx (i - (controls.length : Int))).bind
    (fun k => (Predictor.new controls cases).get (k + (controls.length : Int))) = some v
  rw [hk, Option.some_bind, hbase]

/-- Under the precondition of the direct constructor every index of the index vector of a
resampled predictor reads in bounds. -/
theorem ResampledPredictor.get_isSome_of_precondition {α : Type} (controls cases : List α)
    (controlsIdx casesIdx : List Int)
    (hlc : controlsIdx.length = controls.length)
    (hrc : ∀ k ∈ controlsIdx, 0 ≤ k ∧ k < (controls.length : Int))
    (hla : casesIdx.length = cases.length)
    (hra : ∀ k ∈ casesIdx, 0 ≤ k ∧ k < (cases.length : Int)) :
    ∀ a ∈ iota (PredictorLike.nTotal
        (ResampledPredictor.new (Predictor.new controls cases) controlsIdx casesIdx)),
      (PredictorLike.get
        (ResampledPredictor.new (Predictor.new controls cases) controlsIdx casesIdx)
        a).isSome = true := by
  intro a ha
  obtain ⟨h0, h1⟩ := (mem_iota _ a).mp ha
  have h1' : a < (controls.length : Int) + (cases.length : Int) := h1
  show ((ResampledPredictor.new (Predictor.new controls cases) controlsIdx casesIdx).get
    a).isSome = true
  by_cases hc : a < (controls.length : Int)
  · obtain ⟨k, v, _, _, _, _, _, hget⟩ :=
      ResampledPredictor.get_control_slot controls cases controlsIdx casesIdx hlc hrc a h0 hc
    rw [hget]
    rfl
  · obtain ⟨k, v, _, _, _, _, _, _, hget⟩ :=
      ResampledPredictor.get_case_slot controls cases controlsIdx casesIdx hla hra a
        (not_lt.mp hc) h1'
    rw [hget]
    rfl

/-- C11: for a resampled predictor built by the direct constructor from index sequences of
the required lengths with in-range values, the materialized sequences agree with indexed
access: slot `k` of `getControls` is the original `controls[controlsIdx[k]]`, slot `k` of
`getCases` is the original `cases[casesIdx[k]]`, and for every `i` in `[0, nTotal)` the value
`get i` (which is defined) is element `i` of `getControls ++ getCases`. -/
theorem resampled_materialized_agree {α : Type} (controls cases : List α)
    (controlsIdx casesIdx : List Int)
    (hlc : controlsIdx.length = controls.length)
    (hrc : ∀ k ∈ controlsIdx, 0 ≤ k ∧ k < (controls.length : Int))
    (hla : casesIdx.length = cases.length)
    (hra : ∀ k ∈ casesIdx, 0 ≤ k ∧ k < (cases.length : Int)) :
    (∀ k : Nat, (k : Int) <
        (ResampledPredictor.new (Predictor.new controls cases) controlsIdx casesIdx).nControls →
      ∃ j v, controlsIdx[k]? = some j ∧ controls[j.toNat]? = some v ∧
        (ResampledPredictor.new (Predictor.new controls cases) controlsIdx
          casesIdx).getControls[k]? = some (some v)) ∧
    (∀ k : Nat, (k : Int) <
        (ResampledPredictor.new (Predictor.new controls cases) controlsIdx casesIdx).nCases →
      ∃ j v, casesIdx[k]? = some j ∧ cases[j.toNat]? = some v ∧
        (ResampledPredictor.new (Predictor.new controls cases) controlsIdx
          casesIdx).getCases[k]? = some (some v)) ∧
    (∀ i : Int, 0 ≤ i →
      i < (ResampledPredictor.new (Predictor.new controls cases) controlsIdx casesIdx).nTotal →
      ((ResampledPredictor.new (Predictor.new controls cases) controlsIdx
          casesIdx).get i).isSome = true ∧
      ((ResampledPredictor.new (Predictor.new controls cases) controlsIdx
          casesIdx).getControls ++
        (ResampledPredictor.new (Predictor.new controls cases) controlsIdx
          casesIdx).getCases)[i.toNat]?
        = some ((ResampledPredictor.new (Predictor.new controls cases) controlsIdx
          casesIdx).get i)) := by
  have hgc : (ResampledPredictor.new (Predictor.new controls cases) controlsIdx
      casesIdx).getControls = controlsIdx.map (readAt controls) := rfl
  have hga : (ResampledPredictor.new (Predictor.new controls cases) controlsIdx
      casesIdx).getCases = casesIdx.map (readAt cases) := rfl
  rw [hgc, hga]
  refine ⟨fun k hk => ?_, fun k hk => ?_, fun i h0 h1 => ?_⟩
  · have hk' : (k : Int) < (controls.length : Int) := hk
    obtain ⟨j, hj, hjm⟩ := getElem?_of_mem_range controlsIdx k (by omega)
    obtain ⟨hj0, hj1⟩ := hrc j hjm
    obtain ⟨v, hv, hv', _⟩ := readAt_mem controls j hj0 hj1
    exact ⟨j, v, hj, hv', by rw [List.getElem?_map, hj, Option.map_some', hv]⟩
  · have hk' : (k : Int) < (cases.length : Int) := hk
    obtain ⟨j, hj, hjm⟩ := getElem?_of_mem_range casesIdx k (by omega)
    obtain ⟨hj0, hj1⟩ := hra j hjm
    obtain ⟨v, hv, hv', _⟩ := readAt_mem cases j hj0 hj1
    exact ⟨j, v, hj, hv', by rw [List.getElem?_map, hj, Option.map_some', hv]⟩
  · have h1' : i < (controls.length : Int) + (cases.length : Int) := h1
    by_cases hc : i < (controls.length : Int)
    · obtain ⟨k, v, _, hk, _, hv, _, hget⟩ :=
        ResampledPredictor.get_control_slot controls cases controlsIdx casesIdx hlc hrc i h0 hc
      refine ⟨by rw [hget]; rfl, ?_⟩
      rw [hget, List.getElem?_append_left (by rw [List.length_map]; omega),
        List.getElem?_map, hk, Option.map_some', hv]
    · obtain ⟨k, v, _, hk, _, hv, _, _, hget⟩ :=
        ResampledPredictor.get_case_slot controls cases controlsIdx casesIdx hla hra i
          (not_lt.mp hc) h1'
      refine ⟨by rw [hget]; rfl, ?_⟩
      have hidx : i.toNat - (controlsIdx.map (readAt controls)).length
          = (i - (controls.length : Int)).toNat := by
        rw [List.length_map]
        omega
      rw [hget, List.getElem?_append_right (by rw [List.length_map]; omega), hidx,
        List.getElem?_map, hk, Option.map_some', hv]

/-- Witness for C11: the tied predictor resampled with `controlsIdx = [2, 2, 0]` and
`casesIdx = [1, 1]`; the materialized sequences are `[2, 2, 2]` and `[3, 3]`, and logical
index `4` reads the last of them. -/
theorem resampled_materialized_agree_witness :
    (ResampledPredictor.new tiedPredictor [2, 2, 0] [1, 1]).getControls
      = [some 2, some 2, some 2] ∧
    (ResampledPredictor.new tiedPredictor [2, 2, 0] [1, 1]).getCases = [some 3, some 3] ∧
    ((ResampledPredictor.new tiedPredictor [2, 2, 0] [1, 1]).getControls ++
      (ResampledPredictor.new tiedPredictor [2, 2, 0] [1, 1]).getCases)[(4 : Int).toNat]?
      = some ((ResampledPredictor.new tiedPredictor [2, 2, 0] [1, 1]).get 4) :=
  ⟨by decide, by decide,
    ((resampled_materialized_agree ([2, 1, 2] : List ℤ) [1, 3] [2, 2, 0] [1, 1] rfl
      (by decide) rfl (by decide)).2.2 4 (by decide) (by decide)).2⟩

/-- C15: for a resampled predictor built by the direct constructor under its precondition and
`i` in `[0, nTotal)`, every read performed by `get i` is in bounds: the read of `controlsIdx`
or `casesIdx`, then the read of the original controls or cases; the base access reached from
a case slot takes the cases branch, since `casesIdx[i - nControls] + nControls >= nControls`;
the result is never `none`. -/
theorem resampled_reads_in_bounds {α : Type} (controls cases : List α)
    (controlsIdx casesIdx : List Int)
    (hlc : controlsIdx.length = controls.length)
    (hrc : ∀ k ∈ controlsIdx, 0 ≤ k ∧ k < (controls.length : Int))
    (hla : casesIdx.length = cases.length)
    (hra : ∀ k ∈ casesIdx, 0 ≤ k ∧ k < (cases.length : Int))
    (i : Int) (h0 : 0 ≤ i)
    (h1 : i < (ResampledPredictor.new (Predictor.new controls cases) controlsIdx casesIdx).nTotal) :
    (i < (ResampledPredictor.new (Predictor.new controls cases) controlsIdx casesIdx).nControls →
      ∃ k, readAt controlsIdx i = some k ∧
        k < (Predictor.new controls cases).nControls ∧
        (readAt controls k).isSome = true) ∧
    ((ResampledPredictor.new (Predictor.new controls cases) controlsIdx casesIdx).nControls ≤ i →
      ∃ k, readAt casesIdx
          (i - (ResampledPredictor.new (Predictor.new controls cases) controlsIdx
            casesIdx).nControls) = some k ∧
        ¬ (k + (Predictor.new controls cases).nControls
            < (Predictor.new controls cases).nControls) ∧
        (readAt cases (k + (Predictor.new controls cases).nControls
            - (Predictor.new controls cases).nControls)).isSome = true) ∧
    (ResampledPredictor.new (Predictor.new controls cases) controlsIdx casesIdx).get i
      ≠ none := by
  have h1' : i < (controls.length : Int) + (cases.length : Int) := h1
  refine ⟨fun hc => ?_, fun hc => ?_, ?_⟩
  · obtain ⟨k, v, hk, _, ⟨_, hk1⟩, hv, _, _⟩ :=
      ResampledPredictor.get_control_slot controls cases controlsIdx casesIdx hlc hrc i h0 hc
    exact ⟨k, hk, hk1, by rw [hv]; rfl⟩
  · obtain ⟨k, v, hk, _, ⟨hk0, _⟩, hv, _, _, _⟩ :=
      ResampledPredictor.get_case_slot controls cases controlsIdx casesIdx hla hra i hc h1'
    refine ⟨k, hk, ?_, ?_⟩
    · show ¬ (k + (controls.length : Int) < (controls.length : Int))
      omega
    · rw [add_sub_cancel_right, hv]
      rfl
  · by_cases hc : i < (controls.length : Int)
    · obtain ⟨k, v, _, _, _, _, _, hget⟩ :=
        ResampledPredictor.get_control_slot controls cases controlsIdx casesIdx hlc hrc i h0 hc
      rw [hget]
      exact Option.some_ne_none v
    · obtain ⟨k, v, _, _, _, _, _, _, hget⟩ :=
        ResampledPredictor.get_case_slot controls cases controlsIdx casesIdx hla hra i
          (not_lt.mp hc) h1'
      rw [hget]
      exact Option.some_ne_none v

/-- Witness for C15: the tied predictor resampled with `controlsIdx = [2, 2, 0]` and
`casesIdx = [1, 1]`, read at the case slot `i = 3`. -/
theorem resampled_reads_in_bounds_witness :
    (ResampledPredictor.new tiedPredictor [2, 2, 0] [1, 1]).get 3 ≠ none :=
  (resampled_reads_in_bounds ([2, 1, 2] : List ℤ) [1, 3] [2, 2, 0] [1, 1] rfl (by decide) rfl
    (by decide) 3 (by decide) (by decide)).2.2

/-! ## The order returned by `getPredictorOrder` on a `ResampledPredictor` -/

/-- C12: for a resampled predictor built by the direct constructor from index sequences of the
required lengths with in-range values, the order for direction `">"` computed over the
resampled indexed access is returned and is a permutation of `0 .. nTotal-1` in which every
adjacent pair `(a, b)` satisfies `resampled[a] <= resampled[b]`, and the order for direction
`"<"` likewise with `>=`. -/
theorem resampled_getOrder_permutation {α : Type} [LinearOrder α]
    (sort : SortRoutine) (hsort : StdSortContract sort) (controls cases : List α)
    (controlsIdx casesIdx : List Int)
    (hlc : controlsIdx.length = controls.length)
    (hrc : ∀ k ∈ controlsIdx, 0 ≤ k ∧ k < (controls.length : Int))
    (hla : casesIdx.length = cases.length)
    (hra : ∀ k ∈ casesIdx, 0 ≤ k ∧ k < (cases.length : Int)) :
    (∃ r, getPredictorOrder sort
        (ResampledPredictor.new (Predictor.new controls cases) controlsIdx casesIdx) ">"
        = some r ∧
      r.Perm (iota
        (ResampledPredictor.new (Predictor.new controls cases) controlsIdx casesIdx).nTotal) ∧
      (r.length : Int)
        = (ResampledPredictor.new (Predictor.new controls cases) controlsIdx casesIdx).nTotal ∧
      (∀ i : Int, 0 ≤ i →
        i < (ResampledPredictor.new (Predictor.new controls cases) controlsIdx casesIdx).nTotal →
        r.count i = 1) ∧
      r.Chain' (fun a b => ∃ va vb,
        (ResampledPredictor.new (Predictor.new controls cases) controlsIdx casesIdx).get a
          = some va ∧
        (ResampledPredictor.new (Predictor.new controls cases) controlsIdx casesIdx).get b
          = some vb ∧ va ≤ vb)) ∧
    (∃ r, getPredictorOrder sort
        (ResampledPredictor.new (Predictor.new controls cases) controlsIdx casesIdx) "<"
        = some r ∧
      r.Perm (iota
        (ResampledPredictor.new (Predictor.new controls cases) controlsIdx casesIdx).nTotal) ∧
      (r.length : Int)
        = (ResampledPredictor.new (Predictor.new controls cases) controlsIdx casesIdx).nTotal ∧
      (∀ i : Int, 0 ≤ i →
        i < (ResampledPredictor.new (Predictor.new controls cases) controlsIdx casesIdx).nTotal →
        r.count i = 1) ∧
      r.Chain' (fun a b => ∃ va vb,
        (ResampledPredictor.new (Predictor.new controls cases) controlsIdx casesIdx).get a
          = some va ∧
        (ResampledPredictor.new (Predictor.new controls cases) controlsIdx casesIdx).get b
          = some vb ∧ va ≥ vb)) := by
  have hl := ResampledPredictor.get_isSome_of_precondition controls cases controlsIdx casesIdx
    hlc hrc hla hra
  have hn : (0 : Int) ≤
      (ResampledPredictor.new (Predictor.new controls cases) controlsIdx casesIdx).nTotal := by
    show (0 : Int) ≤ (controls.length : Int) + (cases.length : Int)
    omega
  constructor
  · obtain ⟨r, hr, hperm, hsorted⟩ := getPredictorOrder_ascending sort hsort
      (ResampledPredictor.new (Predictor.new controls cases) controlsIdx casesIdx) hl
    obtain ⟨hlen, hcount⟩ := perm_iota_spec hn hperm
    exact ⟨r, hr, hperm, hlen, hcount, hsorted.chain'⟩
  · obtain ⟨r, hr, hperm, hsorted⟩ := getPredictorOrder_descending sort hsort
      (ResampledPredictor.new (Predictor.new controls cases) controlsIdx casesIdx) hl
      "<" (by decide)
    obtain ⟨hlen, hcount⟩ := perm_iota_spec hn hperm
    exact ⟨r, hr, hperm, hlen, hcount, hsorted.chain'⟩

/-- Witness for C12: the insertion sort on the tied predictor resampled with
`controlsIdx = [2, 0, 1]` and `casesIdx = [1, 1]` (resampled values `2, 2, 1, 3, 3`). -/
theorem resampled_getOrder_permutation_witness :
    StdSortContract insertionSort ∧
    (∃ r, getPredictorOrder insertionSort
        (ResampledPredictor.new tiedPredictor [2, 0, 1] [1, 1]) ">" = some r ∧
      r.Perm (iota (ResampledPredictor.new tiedPredictor [2, 0, 1] [1, 1]).nTotal) ∧
      r.Chain' (fun a b => ∃ va vb,
        (ResampledPredictor.new tiedPredictor [2, 0, 1] [1, 1]).get a = some va ∧
        (ResampledPredictor.new tiedPredictor [2, 0, 1] [1, 1]).get b = some vb ∧ va ≤ vb)) ∧
    (∃ r, getPredictorOrder insertionSort
        (ResampledPredictor.new tiedPredictor [2, 0, 1] [1, 1]) "<" = some r ∧
      r.Perm (iota (ResampledPredictor.new tiedPredictor [2, 0, 1] [1, 1]).nTotal) ∧
      r.Chain' (fun a b => ∃ va vb,
        (ResampledPredictor.new tiedPredictor [2, 0, 1] [1, 1]).get a = some va ∧
        (ResampledPredictor.new tiedPredictor [2, 0, 1] [1, 1]).get b = some vb ∧ va ≥ vb)) :=
  have h := resampled_getOrder_permutation insertionSort insertionSort_contract
    ([2, 1, 2] : List ℤ) [1, 3] [2, 0, 1] [1, 1] rfl (by decide) rfl (by decide)
  ⟨insertionSort_contract,
    h.1.imp (fun _ hr => ⟨hr.1, hr.2.1, hr.2.2.2.2⟩),
    h.2.imp (fun _ hr => ⟨hr.1, hr.2.1, hr.2.2.2.2⟩)⟩

/-! ## The resampling strategies -/

theorem lcgDraw_spec (n : Nat) (hn : 0 < n) :
    ∀ (count s : Nat), (lcgDraw s n count).1.length = count ∧
      ∀ v ∈ (lcgDraw s n count).1, 0 ≤ v ∧ v < (n : Int) := by
  intro count
  induction count with
  | zero =>
    intro s
    exact ⟨rfl, fun v hv => absurd hv (List.not_mem_nil v)⟩
  | succ c ih =>
    intro s
    obtain ⟨hlen, hrange⟩ := ih ((5 * s + 3) % 16)
    constructor
    · show ((lcgDraw ((5 * s + 3) % 16) n c).1.length + 1) = c + 1
      rw [hlen]
    · intro v hv
      have hv' : v = (((5 * s + 3) % 16 % n : Nat) : Int) ∨
          v ∈ (lcgDraw ((5 * s + 3) % 16) n c).1 := List.mem_cons.mp hv
      rcases hv' with rfl | hv'
      · have := Nat.mod_lt ((5 * s + 3) % 16) hn
        omega
      · exact hrange v hv'

/-- The linear congruential generator meets the contract of the index generator. -/
theorem lcgDraw_contract : DrawContract lcgDraw := by
  intro s n count h
  rcases Nat.eq_zero_or_pos n with hn | hn
  · have hc : count = 0 := by omega
    subst hc
    exact ⟨rfl, fun v hv => absurd hv (List.not_mem_nil v)⟩
  · exact lcgDraw_spec n hn count s

/-- C13: for a resampled predictor built by the stratified strategy from a predictor with
`nControls = m` and `nCases = n`, whatever the outcome of the random draws, `controlsIdx` has
length `m` with every value in `[0, m)` and `casesIdx` has length `n` with every value in
`[0, n)`. -/
theorem stratified_indices_in_range {α σ : Type} (gen : IndexGenerator σ)
    (hgen : DrawContract gen) (s : σ) (controls cases : List α) :
    (ResampledPredictorStratified.new gen s (Predictor.new controls cases)).1.nControls
      = (controls.length : Int) ∧
    (ResampledPredictorStratified.new gen s (Predictor.new controls cases)).1.nCases
      = (cases.length : Int) ∧
    (ResampledPredictorStratified.new gen s (Predictor.new controls cases)).1.controlsIdx.length
      = controls.length ∧
    (∀ v ∈ (ResampledPredictorStratified.new gen s
        (Predictor.new controls cases)).1.controlsIdx, 0 ≤ v ∧ v < (controls.length : Int)) ∧
    (ResampledPredictorStratified.new gen s (Predictor.new controls cases)).1.casesIdx.length
      = cases.length ∧
    (∀ v ∈ (ResampledPredictorStratified.new gen s
        (Predictor.new controls cases)).1.casesIdx, 0 ≤ v ∧ v < (cases.length : Int)) := by
  have hc : (ResampledPredictorStratified.new gen s
      (Predictor.new controls cases)).1.controlsIdx
      = (gen s controls.length controls.length).1 := by
    show (gen s ((controls.length : Int)).toNat ((controls.length : Int)).toNat).1 = _
    rw [Int.toNat_ofNat]
  have ha : (ResampledPredictorStratified.new gen s
      (Predictor.new controls cases)).1.casesIdx
      = (gen (gen s controls.length controls.length).2 cases.length cases.length).1 := by
    show (gen (gen s ((controls.length : Int)).toNat ((controls.length : Int)).toNat).2
      ((cases.length : Int)).toNat ((cases.length : Int)).toNat).1 = _
    rw [Int.toNat_ofNat, Int.toNat_ofNat]
  rw [hc, ha]
  obtain ⟨h1, h2⟩ := hgen s controls.length controls.length
    ((Nat.eq_zero_or_pos controls.length).imp id id)
  obtain ⟨h3, h4⟩ := hgen (gen s controls.length controls.length).2 cases.length cases.length
    ((Nat.eq_zero_or_pos cases.length).imp id id)
  exact ⟨rfl, rfl, h1, h2, h3, h4⟩

/-- Witness for C13: the linear congruential generator, started at state `1`, on the tied
predictor. -/
theorem stratified_indices_in_range_witness :
    DrawContract lcgDraw ∧
    (ResampledPredictorStratified.new lcgDraw 1 tiedPredictor).1.controlsIdx = [2, 2, 1] ∧
    (ResampledPredictorStratified.new lcgDraw 1 tiedPredictor).1.casesIdx = [1, 0] ∧
    (ResampledPredictorStratified.new lcgDraw 1 tiedPredictor).1.controlsIdx.length = 3 ∧
    (∀ v ∈ (ResampledPredictorStratified.new lcgDraw 1 tiedPredictor).1.controlsIdx,
      0 ≤ v ∧ v < 3) :=
  have h := stratified_indices_in_range lcgDraw lcgDraw_contract 1 ([2, 1, 2] : List ℤ) [1, 3]
  ⟨lcgDraw_contract, by decide, by decide, h.2.2.1, h.2.2.2.1⟩

/-- C14: for a resampled predictor built by the non-stratified strategy from a predictor with
`nControls = m` and `nCases = n`, whatever the outcome of the draws from the pooled domain of
size `m + n`, the group sizes are still `m` and `n`: `nControls = m`, `nCases = n`,
`controlsIdx` has length `m` and `casesIdx` has length `n`, and so have the resampled
groups. -/
theorem nonstratified_sizes_preserved {α σ : Type} (gen : IndexGenerator σ)
    (hgen : DrawContract gen) (toControlIdx toCaseIdx : Int → Int) (s : σ)
    (controls cases : List α) :
    (ResampledPredictorNonStratified.new gen toControlIdx toCaseIdx s
      (Predictor.new controls cases)).1.nControls = (controls.length : Int) ∧
    (ResampledPredictorNonStratified.new gen toControlIdx toCaseIdx s
      (Predictor.new controls cases)).1.nCases = (cases.length : Int) ∧
    (ResampledPredictorNonStratified.new gen toControlIdx toCaseIdx s
      (Predictor.new controls cases)).1.controlsIdx.length = controls.length ∧
    (ResampledPredictorNonStratified.new gen toControlIdx toCaseIdx s
      (Predictor.new controls cases)).1.casesIdx.length = cases.length ∧
    (ResampledPredictorNonStratified.new gen toControlIdx toCaseIdx s
      (Predictor.new controls cases)).1.getControls.length = controls.length ∧
    (ResampledPredictorNonStratified.new gen toControlIdx toCaseIdx s
      (Predictor.new controls cases)).1.getCases.length = cases.length := by
  have hT : ((controls.length : Int) + (cases.length : Int)).toNat
      = controls.length + cases.length := by omega
  obtain ⟨hlen, _⟩ := hgen s (controls.length + cases.length) (controls.length + cases.length)
    ((Nat.eq_zero_or_pos (controls.length + cases.length)).imp id id)
  have hc : (ResampledPredictorNonStratified.new gen toControlIdx toCaseIdx s
      (Predictor.new controls cases)).1.controlsIdx.length = controls.length := by
    show (((gen s ((controls.length : Int) + (cases.length : Int)).toNat
      ((controls.length : Int) + (cases.length : Int)).toNat).1.take
        ((controls.length : Int)).toNat).map toControlIdx).length = controls.length
    rw [hT, Int.toNat_ofNat, List.length_map, List.length_take, hlen]
    omega
  have ha : (ResampledPredictorNonStratified.new gen toControlIdx toCaseIdx s
      (Predictor.new controls cases)).1.casesIdx.length = cases.length := by
    show (((gen s ((controls.length : Int) + (cases.length : Int)).toNat
      ((controls.length : Int) + (cases.length : Int)).toNat).1.drop
        ((controls.length : Int)).toNat).map toCaseIdx).length = cases.length
    rw [hT, Int.toNat_ofNat, List.length_map, List.length_drop, hlen]
    omega
  refine ⟨rfl, rfl, hc, ha, ?_, ?_⟩
  · show (getResampledVector _ _).length = controls.length
    unfold getResampledVector
    rw [List.length_map]
    exact hc
  · show (getResampledVector _ _).length = cases.length
    unfold getResampledVector
    rw [List.length_map]
    exact ha

/-- Witness for C14: the linear congruential generator, started at state `1`, on the tied
predictor; a pooled index fills a control slot unchanged and a case slot shifted by
`nControls`. -/
theorem nonstratified_sizes_preserved_witness :
    DrawContract lcgDraw ∧
    (ResampledPredictorNonStratified.new lcgDraw id (fun d => d - 3) 1
      tiedPredictor).1.controlsIdx = [3, 1, 0] ∧
    (ResampledPredictorNonStratified.new lcgDraw id (fun d => d - 3) 1
      tiedPredictor).1.casesIdx = [-3, -1] ∧
    (ResampledPredictorNonStratified.new lcgDraw id (fun d => d - 3) 1
      tiedPredictor).1.nControls = 3 ∧
    (ResampledPredictorNonStratified.new lcgDraw id (fun d => d - 3) 1
      tiedPredictor).1.nCases = 2 :=
  have h := nonstratified_sizes_preserved lcgDraw lcgDraw_contract id (fun d => d - 3) 1
    ([2, 1, 2] : List ℤ) [1, 3]
  ⟨lcgDraw_contract, by decide, by decide, h.1, h.2.1⟩

/-! ## The two directions compared -/

/-- Whatever the direction, the call returns when every index of the index vector reads in
bounds. -/
theorem getPredictorOrder_returns {P α : Type} [PredictorLike P α] [LinearOrder α]
    (sort : SortRoutine) (hsort : StdSortContract sort) (p : P)
    (hl : ∀ a ∈ iota (PredictorLike.nTotal p), (PredictorLike.get p a).isSome = true)
    (d : String) : ∃ r, getPredictorOrder sort p d = some r := by
  by_cases hd : d = ">"
  · obtain ⟨r, hr, _⟩ := getPredictorOrder_ascending sort hsort p hl
    exact ⟨r, by rw [hd]; exact hr⟩
  · obtain ⟨r, hr, _⟩ := getPredictorOrder_descending sort hsort p hl d hd
    exact ⟨r, hr⟩

/-- The values read along the order of any direction other than `">"` are the values read
along the order of direction `">"`, reversed. -/
theorem getPredictorOrder_values_reverse {P α : Type} [PredictorLike P α] [LinearOrder α]
    (sort : SortRoutine) (hsort : StdSortContract sort) (p : P)
    (hl : ∀ a ∈ iota (PredictorLike.nTotal p), (PredictorLike.get p a).isSome = true)
    (d : String) (hd : d ≠ ">") :
    ∃ r₁ r₂, getPredictorOrder sort p ">" = some r₁ ∧ getPredictorOrder sort p d = some r₂ ∧
      r₂.map (PredictorLike.get p) = (r₁.map (PredictorLike.get p)).reverse := by
  obtain ⟨r₁, hr₁, hperm₁, hsorted₁⟩ := getPredictorOrder_ascending sort hsort p hl
  obtain ⟨r₂, hr₂, hperm₂, hsorted₂⟩ := getPredictorOrder_descending sort hsort p hl d hd
  refine ⟨r₁, r₂, hr₁, hr₂, ?_⟩
  have hperm : (r₁.map (PredictorLike.get p)).Perm (r₂.map (PredictorLike.get p)).reverse :=
    ((hperm₁.trans hperm₂.symm).map _).trans (List.reverse_perm _).symm
  have h₁ : (r₁.map (PredictorLike.get p)).Pairwise
      (fun x y => ∃ va vb, x = some va ∧ y = some vb ∧ va ≤ vb) :=
    List.pairwise_map.mpr hsorted₁
  have h₂ : ((r₂.map (PredictorLike.get p)).reverse).Pairwise
      (fun x y => ∃ va vb, x = some va ∧ y = some vb ∧ va ≤ vb) := by
    rw [List.pairwise_reverse, List.pairwise_map]
    refine hsorted₂.imp ?_
    rintro a b ⟨va, vb, hva, hvb, hle⟩
    exact ⟨vb, va, hvb, hva, hle⟩
  have heq := eq_of_perm_of_pairwise _ _ hperm
    (by
      rintro x _ y _ ⟨va, vb, hx, hy, hle⟩ ⟨vb', va', hy', hx', hle'⟩
      rw [hx] at hx'
      rw [hy] at hy'
      obtain rfl := Option.some_inj.mp hx'
      obtain rfl := Option.some_inj.mp hy'
      rw [hx, hy, le_antisymm hle hle'])
    h₁ h₂
  rw [heq, List.reverse_reverse]

/-- C16: for every predictor, tied values included, the sequence of predictor values read
along the order for direction `"<"` is the reverse of the sequence of values read along the
order for direction `">"`. -/
theorem getOrder_values_reverse {α : Type} [LinearOrder α]
    (sort : SortRoutine) (hsort : StdSortContract sort) (controls cases : List α) :
    ∃ r₁ r₂, getPredictorOrder sort (Predictor.new controls cases) ">" = some r₁ ∧
      getPredictorOrder sort (Predictor.new controls cases) "<" = some r₂ ∧
      r₂.map (fun a => (Predictor.new controls cases).get a)
        = (r₁.map (fun a => (Predictor.new controls cases).get a)).reverse :=
  getPredictorOrder_values_reverse sort hsort (Predictor.new controls cases)
    (Predictor.get_isSome_of_mem_iota controls cases) "<" (by decide)

/-- Witness for C16: the insertion sort on the predictor with ties; the value sequences are
reverses of each other although the index sequences are not. -/
theorem getOrder_values_reverse_witness :
    StdSortContract insertionSort ∧
    (∃ r₁ r₂, getPredictorOrder insertionSort tiedPredictor ">" = some r₁ ∧
      getPredictorOrder insertionSort tiedPredictor "<" = some r₂ ∧
      r₂.map (fun a => tiedPredictor.get a)
        = (r₁.map (fun a => tiedPredictor.get a)).reverse) ∧
    getPredictorOrder insertionSort tiedPredictor ">" = some [1, 3, 0, 2, 4] ∧
    getPredictorOrder insertionSort tiedPredictor "<" = some [4, 0, 2, 1, 3] :=
  ⟨insertionSort_contract,
    getOrder_values_reverse insertionSort insertionSort_contract [2, 1, 2] [1, 3],
    by decide, by decide⟩

/-- C17: for every predictor-like object and every direction string `d` other than `">"`
(`"<"`, the empty string, any other token), `getPredictorOrder` with `d` equals
`getPredictorOrder` with `"<"` and sorts with the reverse comparator; only `">"` sorts with
the ascending comparator; no direction is rejected (the call returns whenever the reads of the
index vector are in bounds); and omitting the direction behaves as `">"`. -/
theorem getPredictorOrder_direction {P α : Type} [PredictorLike P α] [LinearOrder α]
    (sort : SortRoutine) (p : P) (d : String) (hd : d ≠ ">") :
    getPredictorOrder sort p d = getPredictorOrder sort p "<" ∧
    getPredictorOrder sort p d
      = sort (PredictorReverseComparator p) (iota (PredictorLike.nTotal p)) ∧
    getPredictorOrder sort p ">"
      = sort (PredictorComparator p) (iota (PredictorLike.nTotal p)) ∧
    getPredictorOrderDefault sort p = getPredictorOrder sort p ">" ∧
    (StdSortContract sort →
      (∀ a ∈ iota (PredictorLike.nTotal p), (PredictorLike.get p a).isSome = true) →
      ∃ r, getPredictorOrder sort p d = some r) := by
  have hrev : getPredictorOrder sort p d
      = sort (PredictorReverseComparator p) (iota (PredictorLike.nTotal p)) := by
    unfold getPredictorOrder
    simp only [if_neg hd]
  have hlt : getPredictorOrder sort p "<"
      = sort (PredictorReverseComparator p) (iota (PredictorLike.nTotal p)) := by
    unfold getPredictorOrder
    simp only [if_neg (show ("<" : String) ≠ ">" by decide)]
  have hasc : getPredictorOrder sort p ">"
      = sort (PredictorComparator p) (iota (PredictorLike.nTotal p)) := by
    unfold getPredictorOrder
    simp only [if_true]
  exact ⟨hrev.trans hlt.symm, hrev, hasc, rfl,
    fun hsort hl => getPredictorOrder_returns sort hsort p hl d⟩

/-- Witness for C17: the insertion sort on the tied predictor with the empty direction
string. -/
theorem getPredictorOrder_direction_witness :
    ("" : String) ≠ ">" ∧
    getPredictorOrder insertionSort tiedPredictor ""
      = getPredictorOrder insertionSort tiedPredictor "<" ∧
    getPredictorOrder insertionSort tiedPredictor "" = some [4, 0, 2, 1, 3] ∧
    getPredictorOrderDefault insertionSort tiedPredictor
      = getPredictorOrder insertionSort tiedPredictor ">" :=
  have h := getPredictorOrder_direction insertionSort tiedPredictor "" (by decide)
  ⟨by decide, h.1, by decide, h.2.2.2.1⟩

/-! ## Resampling with the identity index sequences -/

theorem readAt_iota (n i : Int) :
    readAt (iota n) i = if 0 ≤ i ∧ i < n then some i else none := by
  by_cases h0 : i < 0
  · rw [readAt_of_neg _ _ h0, if_neg (fun h => absurd h.1 (not_le.mpr h0))]
  · have h0' : 0 ≤ i := not_lt.mp h0
    rw [readAt_of_nonneg _ _ h0']
    unfold iota
    rw [List.getElem?_map]
    by_cases h1 : i < n
    · rw [if_pos ⟨h0', h1⟩, List.getElem?_range (by omega)]
      show some (Int.ofNat i.toNat) = some i
      congr 1
      exact Int.toNat_of_nonneg h0'
    · rw [if_neg (fun h => h1 h.2),
        List.getElem?_eq_none (by rw [List.length_range]; omega)]
      rfl

/-- Resampling with the identity index sequences gives the indexed access of the source
predictor, at every `int` index. -/
theorem ResampledPredictor.get_identity {α : Type} (controls cases : List α) (i : Int) :
    (ResampledPredictor.new (Predictor.new controls cases)
        (iota (Predictor.new controls cases).nControls)
        (iota (Predictor.new controls cases).nCases)).get i
      = (Predictor.new controls cases).get i := by
  unfold ResampledPredictor.get
  show (if i < (controls.length : Int) then
      (readAt (iota (controls.length : Int)) i).bind
        (fun k => (Predictor.new controls cases).get k)
    else
      (readAt (iota (cases.length : Int)) (i - (controls.length : Int))).bind
        (fun k => (Predictor.new controls cases).get (k + (controls.length : Int))))
    = (Predictor.new controls cases).get i
  rw [readAt_iota, readAt_iota]
  by_cases hc : i < (controls.length : Int)
  · rw [if_pos hc]
    by_cases h0 : 0 ≤ i
    · rw [if_pos ⟨h0, hc⟩, Option.some_bind]
    · rw [if_neg (fun h => h0 h.1), Option.none_bind, Predictor.get_new,
        readAt_of_neg _ _ (not_le.mp h0)]
  · rw [if_neg hc]
    by_cases h1 : i - (controls.length : Int) < (cases.length : Int)
    · rw [if_pos ⟨by omega, h1⟩, Option.some_bind, sub_add_cancel]
    · rw [if_neg (fun h => h1 h.2), Option.none_bind]
      symm
      have hnone : ¬ ((Predictor.new controls cases).get i).isSome = true := by
        rw [Predictor.get_isSome_iff]
        intro h
        have h2 : i < (controls.length : Int) + (cases.length : Int) := h.2
        omega
      exact Option.not_isSome_iff_eq_none.mp hnone

/-- C18: for every predictor `p`, the resampled predictor built by the direct constructor with
the identity index sequences `[0, .., nControls-1]` and `[0, .., nCases-1]` is observationally
equal to `p`: `get i` agrees with `p.get i` (for every `i`, and is defined for `i` in
`[0, nTotal)`), and `getPredictorOrder` over it returns the same index sequence as over `p`
for every direction. -/
theorem resampled_identity_equal {α : Type} [LinearOrder α] (controls cases : List α) :
    (∀ i : Int,
      (ResampledPredictor.new (Predictor.new controls cases)
          (iota (Predictor.new controls cases).nControls)
          (iota (Predictor.new controls cases).nCases)).get i
        = (Predictor.new controls cases).get i) ∧
    (∀ i : Int, 0 ≤ i → i < (Predictor.new controls cases).nTotal →
      ((ResampledPredictor.new (Predictor.new controls cases)
          (iota (Predictor.new controls cases).nControls)
          (iota (Predictor.new controls cases).nCases)).get i).isSome = true) ∧
    (∀ (sort : SortRoutine) (d : String),
      getPredictorOrder sort
          (ResampledPredictor.new (Predictor.new controls cases)
            (iota (Predictor.new controls cases).nControls)
            (iota (Predictor.new controls cases).nCases)) d
        = getPredictorOrder sort (Predictor.new controls cases) d) ∧
    (∀ (sort : SortRoutine), StdSortContract sort → ∀ d : String,
      ∃ r, getPredictorOrder sort
          (ResampledPredictor.new (Predictor.new controls cases)
            (iota (Predictor.new controls cases).nControls)
            (iota (Predictor.new controls cases).nCases)) d = some r ∧
        getPredictorOrder sort (Predictor.new controls cases) d = some r) := by
  have hget := ResampledPredictor.get_identity controls cases
  have hcomp : PredictorComparator
      (ResampledPredictor.new (Predictor.new controls cases)
        (iota (Predictor.new controls cases).nControls)
        (iota (Predictor.new controls cases).nCases))
      = PredictorComparator (Predictor.new controls cases) := by
    funext i j
    show ((ResampledPredictor.new _ _ _).get i).bind (fun a =>
        ((ResampledPredictor.new _ _ _).get j).bind fun b => some (decide (a < b)))
      = ((Predictor.new controls cases).get i).bind (fun a =>
        ((Predictor.new controls cases).get j).bind fun b => some (decide (a < b)))
    rw [hget i, hget j]
  have hrev : PredictorReverseComparator
      (ResampledPredictor.new (Predictor.new controls cases)
        (iota (Predictor.new controls cases).nControls)
        (iota (Predictor.new controls cases).nCases))
      = PredictorReverseComparator (Predictor.new controls cases) := by
    funext i j
    show ((ResampledPredictor.new _ _ _).get j).bind (fun b =>
        ((ResampledPredictor.new _ _ _).get i).bind fun a => some (decide (b < a)))
      = ((Predictor.new controls cases).get j).bind (fun b =>
        ((Predictor.new controls cases).get i).bind fun a => some (decide (b < a)))
    rw [hget i, hget j]
  have horder : ∀ (sort : SortRoutine) (d : String),
      getPredictorOrder sort
          (ResampledPredictor.new (Predictor.new controls cases)
            (iota (Predictor.new controls cases).nControls)
            (iota (Predictor.new controls cases).nCases)) d
        = getPredictorOrder sort (Predictor.new controls cases) d := by
    intro sort d
    unfold getPredictorOrder
    rw [hcomp, hrev]
    rfl
  refine ⟨hget, fun i h0 h1 => ?_, horder, fun sort hsort d => ?_⟩
  · rw [hget i]
    exact (Predictor.get_isSome_iff controls cases i).mpr ⟨h0, h1⟩
  · obtain ⟨r, hr⟩ := getPredictorOrder_returns sort hsort (Predictor.new controls cases)
      (Predictor.get_isSome_of_mem_iota controls cases) d
    exact ⟨r, by rw [horder sort d]; exact hr, hr⟩

/-- Witness for C18: the tied predictor resampled with `[0, 1, 2]` and `[0, 1]` has the order
of the tied predictor under the insertion sort. -/
theorem resampled_identity_equal_witness :
    StdSortContract insertionSort ∧
    iota tiedPredictor.nControls = [0, 1, 2] ∧ iota tiedPredictor.nCases = [0, 1] ∧
    getPredictorOrder insertionSort (ResampledPredictor.new tiedPredictor
        (iota tiedPredictor.nControls) (iota tiedPredictor.nCases)) "<"
      = getPredictorOrder insertionSort tiedPredictor "<" ∧
    getPredictorOrder insertionSort tiedPredictor "<" = some [4, 0, 2, 1, 3] :=
  ⟨insertionSort_contract, by decide, by decide,
    (resampled_identity_equal ([2, 1, 2] : List ℤ) [1, 3]).2.2.1 insertionSort "<",
    by decide⟩

end PROC
